import Mathlib

/-!
Verification development for the "Block DOM" reconciliation core: five block
variants (BText, BHtml, BNode, BMulti, BCollection) over a host visual tree.

The host visual tree (the DOM) is external to the repository; it is modelled
here as a forest of identity-carrying nodes together with a document state
holding the live forest (the children of the mount container), the detached
nodes (created but not attached, or removed), the registered event listeners,
and a fresh-identity counter.  The block classes and their mount / patch /
remove operations are translated directly from the source file; operations
take a fuel argument so that the mutual recursion over block trees is
structural (fuel exhaustion is reported as a distinct outcome, never
confused with a runtime fault).
-/

/-- A node of the host visual tree.  Modelled from the spec: section 6 reduces the
host API to nodes that can be created, inserted before a marker, removed and
parsed; every node carries an identity so that node identity (as opposed to
content equality) is observable, matching JavaScript object identity. -/
inductive DNode where
  | text (id : Nat) (content : String)
  | elem (id : Nat) (tag : String) (kids : List DNode)

/-- Identity of a host node. -/
def DNode.nid : DNode → Nat
  | .text i _ => i
  | .elem i _ _ => i

mutual
/-- Does the subtree rooted at this node contain a node with identity i. -/
def containsIdN (i : Nat) : DNode → Bool
  | .text j _ => j == i
  | .elem j _ kids => j == i || containsIdL i kids
def containsIdL (i : Nat) : List DNode → Bool
  | [] => false
  | k :: ks => containsIdN i k || containsIdL i ks
end

/-- Does node identity i occur strictly inside this node (among descendants). -/
def containsInsideN (i : Nat) : DNode → Bool
  | .text _ _ => false
  | .elem _ _ kids => containsIdL i kids

mutual
/-- Remove the subtree whose root has identity i from within this node,
returning the extracted subtree (if found) and the node with it removed. -/
def extractN (i : Nat) : DNode → Option DNode × DNode
  | .text j s => (none, .text j s)
  | .elem j t kids =>
    let r := extractL i kids
    (r.1, .elem j t r.2)
def extractL (i : Nat) : List DNode → Option DNode × List DNode
  | [] => (none, [])
  | k :: ks =>
    if k.nid == i then (some k, ks)
    else
      match extractN i k with
      | (some x, k') => (some x, k' :: ks)
      | (none, k') =>
        let r := extractL i ks
        (r.1, k' :: r.2)
end

/-- Remove the subtree with root identity i from a forest, matching only at
depth at least one (forest roots themselves are not matched: a detached root
has no parent, so removing it is a no-op in the host API). -/
def extractInside (i : Nat) : List DNode → Option DNode × List DNode
  | [] => (none, [])
  | k :: ks =>
    match extractN i k with
    | (some x, k') => (some x, k' :: ks)
    | (none, k') =>
      let r := extractInside i ks
      (r.1, k' :: r.2)

mutual
/-- Insert node x immediately before the node with identity t, anywhere inside
this node; none when t does not occur. -/
def insertBeforeN (t : Nat) (x : DNode) : DNode → Option DNode
  | .text _ _ => none
  | .elem j tg kids => (insertBeforeL t x kids).map (DNode.elem j tg)
def insertBeforeL (t : Nat) (x : DNode) : List DNode → Option (List DNode)
  | [] => none
  | k :: ks =>
    if k.nid == t then some (x :: k :: ks)
    else
      match insertBeforeN t x k with
      | some k' => some (k' :: ks)
      | none => (insertBeforeL t x ks).map (k :: ·)
end

/-- Insert x before the node with identity t in a forest, matching targets only
at depth at least one (a forest root has no parent to insert under). -/
def insertBeforeInside (t : Nat) (x : DNode) : List DNode → Option (List DNode)
  | [] => none
  | k :: ks =>
    match insertBeforeN t x k with
    | some k' => some (k' :: ks)
    | none => (insertBeforeInside t x ks).map (k :: ·)

mutual
/-- Text content of the text node with identity i, searched in the subtree. -/
def getTextN (i : Nat) : DNode → Option String
  | .text j s => if j == i then some s else none
  | .elem _ _ kids => getTextL i kids
def getTextL (i : Nat) : List DNode → Option String
  | [] => none
  | k :: ks =>
    match getTextN i k with
    | some s => some s
    | none => getTextL i ks
end

mutual
/-- Overwrite the text content of the text node with identity i. -/
def setTextN (i : Nat) (s : String) : DNode → DNode
  | .text j s0 => if j == i then .text j s else .text j s0
  | .elem j t kids => .elem j t (setTextL i s kids)
def setTextL (i : Nat) (s : String) : List DNode → List DNode
  | [] => []
  | k :: ks => setTextN i s k :: setTextL i s ks
end

mutual
/-- Number of elements with the given tag in the subtree, the node included. -/
def countTagN (tg : String) : DNode → Nat
  | .text _ _ => 0
  | .elem _ t kids => (if t == tg then 1 else 0) + countTagL tg kids
def countTagL (tg : String) : List DNode → Nat
  | [] => 0
  | k :: ks => countTagN tg k + countTagL tg ks
end

/-- getElementsByTagName(tag).length on an element: descendants only, the
element itself excluded. -/
def countTagUnder (tg : String) : DNode → Nat
  | .text _ _ => 0
  | .elem _ _ kids => countTagL tg kids

mutual
/-- Replace the first element (document pre-order) with the given tag by x,
this node included; the replaced element's whole subtree is discarded, as
replaceWith does. -/
def replaceFirstTagN (tg : String) (x : DNode) : DNode → Option DNode
  | .text _ _ => none
  | .elem j t kids =>
    if t == tg then some x
    else (replaceFirstTagL tg x kids).map (DNode.elem j t)
def replaceFirstTagL (tg : String) (x : DNode) : List DNode → Option (List DNode)
  | [] => none
  | k :: ks =>
    match replaceFirstTagN tg x k with
    | some k' => some (k' :: ks)
    | none => (replaceFirstTagL tg x ks).map (k :: ·)
end

/-- Replace the first matching descendant of an element (the root excluded,
matching anchorElems[0].replaceWith where anchorElems ranges over
descendants). -/
def replaceFirstTagUnder (tg : String) (x : DNode) : DNode → Option DNode
  | .text i s => (DNode.text i s, none).2
  | .elem j t kids => (replaceFirstTagL tg x kids).map (DNode.elem j t)

mutual
/-- cloneNode(true): a deep copy carrying fresh identities, numbered from the
given counter in pre-order. -/
def cloneNodeFresh : DNode → Nat → DNode × Nat
  | .text _ s, n => (.text n s, n + 1)
  | .elem _ tg kids, n =>
    let r := cloneKidsFresh kids (n + 1)
    (.elem n tg r.1, r.2)
def cloneKidsFresh : List DNode → Nat → List DNode × Nat
  | [], n => ([], n)
  | k :: ks, n =>
    let r := cloneNodeFresh k n
    let r2 := cloneKidsFresh ks r.2
    (r.1 :: r2.1, r2.2)
end

mutual
/-- Identities of a subtree in document pre-order. -/
def idsN : DNode → List Nat
  | .text i _ => [i]
  | .elem i _ kids => i :: idsL kids
def idsL : List DNode → List Nat
  | [] => []
  | k :: ks => idsN k ++ idsL ks
end

/-- Host document state.  Modelled from the spec: live is the forest of
children of the mount container (every live node, top level included, has a
parent); detached holds created-but-unattached and removed subtrees (their
roots have no parent); listeners records event-listener registrations as
(element identity, event type, handler index); nextId supplies fresh node
identities. -/
structure Doc where
  live : List DNode
  detached : List DNode
  listeners : List (Nat × String × Nat)
  nextId : Nat

def emptyDoc : Doc := { live := [], detached := [], listeners := [], nextId := 0 }

/-- document.createTextNode(s): a fresh, detached text node. -/
def createTextNode (s : String) (d : Doc) : Nat × Doc :=
  (d.nextId,
   { d with detached := d.detached ++ [DNode.text d.nextId s], nextId := d.nextId + 1 })

/-- Does the node with identity t have a parent: anywhere in the live forest
(the container parents its top level), or strictly inside a detached tree. -/
def hasParentD (t : Nat) (d : Doc) : Bool :=
  containsIdL t d.live || d.detached.any (containsInsideN t)

/-- Detach and return the subtree with root identity i, from the live forest
or from the detached forest. -/
def takeNodeD (i : Nat) (d : Doc) : Option DNode × Doc :=
  match extractL i d.live with
  | (some x, live') => (some x, { d with live := live' })
  | (none, _) =>
    match extractL i d.detached with
    | (some x, det') => (some x, { d with detached := det' })
    | (none, _) => (none, d)

/-- target.before(node): insert the node with identity x immediately before
the node with identity t.  When t has no parent the call does nothing; the
moved node is first detached from wherever it stands. -/
def beforeD (t : Nat) (x : Nat) (d : Doc) : Doc :=
  if hasParentD t d then
    match takeNodeD x d with
    | (some n, d') =>
      match insertBeforeL t n d'.live with
      | some live' => { d' with live := live' }
      | none =>
        match insertBeforeInside t n d'.detached with
        | some det' => { d' with detached := det' }
        | none => d
    | (none, _) => d
  else d

/-- node.remove(): detach the subtree with root identity i from its parent
(no-op when parentless); the detached subtree is retained, since the
JavaScript object persists and may still be read or re-inserted. -/
def removeD (i : Nat) (d : Doc) : Doc :=
  match extractL i d.live with
  | (some x, live') => { d with live := live', detached := d.detached ++ [x] }
  | (none, _) =>
    match extractInside i d.detached with
    | (some x, det') => { d with detached := det' ++ [x] }
    | (none, _) => d

/-- parent.appendChild(node) on the mount container: move the node with
identity i to the end of the live forest. -/
def appendChildD (i : Nat) (d : Doc) : Doc :=
  match takeNodeD i d with
  | (some n, d') => { d' with live := d'.live ++ [n] }
  | (none, _) => d

/-- textContent of the text node with identity i, live or detached. -/
def getTextD (i : Nat) (d : Doc) : Option String :=
  match getTextL i d.live with
  | some s => some s
  | none => getTextL i d.detached

/-- Assign textContent of the text node with identity i. -/
def setTextD (i : Nat) (s : String) (d : Doc) : Doc :=
  { d with live := setTextL i s d.live, detached := setTextL i s d.detached }

/-- el.addEventListener(eventType, closure): the closure of setupHandler reads
this.handlers[index][1] at invocation time, so the registration records the
element, the event type and the handler index. -/
def addEventListenerD (el : Nat) (ev : String) (idx : Nat) (d : Doc) : Doc :=
  { d with listeners := d.listeners ++ [(el, ev, idx)] }

/-- Modelled from the spec: host primitive (4) of section 6, parsing a markup
string into a list of live nodes (div.innerHTML = s; the scratch div of
BHtml.build is discarded).  The model maps a non-empty string to a single
root-level text leaf holding the raw string — section 7 notes such output is
silently accepted — and the empty string to no nodes. -/
def parseHTML (s : String) (nid : Nat) : List DNode × Nat :=
  if s = "" then ([], nid) else ([DNode.text nid s], nid + 1)

/-- Is node identity i currently in the live tree. -/
def inLiveD (i : Nat) (d : Doc) : Bool := containsIdL i d.live

/-- Identities of the live forest in document pre-order. -/
def liveIdsD (d : Doc) : List Nat := idsL d.live

/-- Outcome of a block operation: a value, a JavaScript runtime fault (a null
or undefined dereference), or fuel exhaustion of the embedding (an artifact
of the shallow embedding, distinct from a fault). -/
inductive Res (α : Type) where
  | ok : α → Res α
  | fault : Res α
  | nofuel : Res α

def Res.bind {α β : Type} : Res α → (α → Res β) → Res β
  | .ok a, f => f a
  | .fault, _ => .fault
  | .nofuel, _ => .nofuel

instance : Monad Res where
  pure := Res.ok
  bind := Res.bind

def Res.isOk {α : Type} : Res α → Bool
  | .ok _ => true
  | _ => false

def Res.isFault {α : Type} : Res α → Bool
  | .fault => true
  | _ => false

def Res.toOption {α : Type} : Res α → Option α
  | .ok a => some a
  | _ => none

/-- The five block variants of the source, one constructor per class, with the
fields of each class:
BText: el (the owned text leaf).
BHtml: html (the markup string), content (the parsed leaf nodes), anchor (the
trailing marker, created in the constructor), el (the representative handle).
BNode: the static per-subclass template, children / anchors / data / handlers
(each nullable, as declared), el.
BMulti: children and anchors, both sized at construction.
BCollection: children (sized at construction, slots initially empty) and the
single trailing anchor. -/
inductive Block where
  | BText (el : Nat)
  | BHtml (html : String) (content : List Nat) (anchor : Nat) (el : Option Nat)
  | BNode (template : DNode) (children : Option (List (Option Block)))
      (anchors : Option (List Nat)) (data : Option (List Nat))
      (handlers : Option (List (String × Nat))) (el : Option Nat)
  | BMulti (children : List (Option Block)) (anchors : List (Option Nat))
  | BCollection (children : List (Option Block)) (anchor : Option Nat)

/-- new BText(text): document.createTextNode(text) is stored as el. -/
def newBText (text : String) (d : Doc) : Block × Doc :=
  let r := createTextNode text d
  (.BText r.1, r.2)

/-- new BHtml(html): the markup string is stored and the trailing anchor
created at once; content starts empty and el null. -/
def newBHtml (html : String) (d : Doc) : Block × Doc :=
  let r := createTextNode "" d
  (.BHtml html [] r.1 none, r.2)

/-- A BNode instance as produced by a compiled template subclass: the static
template, the initial children and data and handlers as the factory set them,
anchors and el null until build. -/
def newBNode (template : DNode) (children : Option (List (Option Block)))
    (data : Option (List Nat)) (handlers : Option (List (String × Nat))) : Block :=
  .BNode template children none data handlers none

/-- new BMulti(n): children and anchors are new Array(n), every slot empty. -/
def newBMulti (n : Nat) : Block :=
  .BMulti (List.replicate n none) (List.replicate n none)

/-- new BCollection(n): children is new Array(n), every slot empty; no anchor
until mount. -/
def newBCollection (n : Nat) : Block :=
  .BCollection (List.replicate n none) none

/-- The marker-building loop of BNode.build: anchors = new Array(count) where
count is the snapshot anchorElems.length, then count times replace
anchorElems[0] — the first remaining owl-anchor descendant of the live
collection — with a fresh empty text marker.  Returns none when a replacement
finds no remaining placeholder (anchorElems[0] undefined: a fault). -/
def buildAnchors (count : Nat) (el : DNode) (nid : Nat) :
    Option (DNode × List Nat × Nat) :=
  match count with
  | 0 => some (el, [], nid)
  | k + 1 =>
    match replaceFirstTagUnder "owl-anchor" (DNode.text nid "") el with
    | some el' =>
      (buildAnchors k el' (nid + 1)).map (fun r => (r.1, nid :: r.2.1, r.2.2))
    | none => none

/-- Modelled from the spec: setupHandlers is a stub in the base class,
overridden by each compiled template subclass to wire event handlers by index
(section 4.4); the model calls setupHandler once per handler index, in index
order, on the block's root element.  Each call is
el.addEventListener(this.handlers[index][0], closure) where the closure reads
this.handlers[index][1] at invocation time. -/
def setupHandlersGo (el : Nat) (hs : List (String × Nat)) (idx : Nat) (d : Doc) : Doc :=
  match hs with
  | [] => d
  | (ev, _) :: rest => setupHandlersGo el rest (idx + 1) (addEventListenerD el ev idx d)

def setupHandlersM (el : Nat) (hs : List (String × Nat)) (d : Doc) : Doc :=
  setupHandlersGo el hs 0 d

/-- BNode.build: clone the static template with fresh node identities; when
children is non-null, snapshot the owl-anchor descendant count and run the
marker-building loop; run update (a stub in the base class); when handlers is
non-null, run setupHandlers.  The built root is left detached; the caller
attaches it.  Returns the root identity, the anchors field after build, and
the document. -/
def BNodeBuild (template : DNode) (children : Option (List (Option Block)))
    (anchors0 : Option (List Nat)) (handlers : Option (List (String × Nat)))
    (d : Doc) : Res (Nat × Option (List Nat) × Doc) :=
  let c := cloneNodeFresh template d.nextId
  let el := c.1
  let d1 := { d with nextId := c.2 }
  match children with
  | some _ =>
    let count := countTagUnder "owl-anchor" el
    match buildAnchors count el d1.nextId with
    | some (el', ancs, n2) =>
      let d2 := { d1 with nextId := n2, detached := d1.detached ++ [el'] }
      let d3 := match handlers with
        | some hs => setupHandlersM el'.nid hs d2
        | none => d2
      .ok (el'.nid, some ancs, d3)
    | none => .fault
  | none =>
    let d2 := { d1 with detached := d1.detached ++ [el] }
    let d3 := match handlers with
      | some hs => setupHandlersM el.nid hs d2
      | none => d2
    .ok (el.nid, anchors0, d3)

/-- Insert each listed node before the anchor, in list order (the repeated
this.anchor.before(elem) loops of BHtml). -/
def insertAllBefore (anchor : Nat) (ids : List Nat) (d : Doc) : Doc :=
  match ids with
  | [] => d
  | i :: rest => insertAllBefore anchor rest (beforeD anchor i d)

/-- Remove each listed node, in list order (the elem.remove() loops of
BHtml). -/
def removeAll (ids : List Nat) (d : Doc) : Doc :=
  match ids with
  | [] => d
  | i :: rest => removeAll rest (removeD i d)

/-- JS assignment this.children[0] = null as BMulti.patch performs it: slot 0
of the array is nulled (on an empty array the write extends it). -/
def setSlot0None (l : List (Option Block)) : List (Option Block) :=
  match l with
  | [] => [none]
  | _ :: rest => none :: rest

mutual

/-- mountBefore(anchor), dispatched over the five variants.
BText: anchor.before(this.el).
BHtml: build (parse this.html into content, el := content[0]), then
anchor.before(this.anchor) and each content node before this.anchor.
BNode: build, then mount each present child before its slot anchor, then
anchor.before(this.el).
BMulti: per slot, create a marker, anchor.before(marker), record it, and mount
the slot's child (when present) before the marker.
BCollection: create the trailing marker, anchor.before(marker), store it, then
mount every child before it; an empty slot faults (undefined.mountBefore). -/
def Block.mountBefore : Nat → Nat → Block → Doc → Res (Block × Doc)
  | 0, _, _, _ => .nofuel
  | _ + 1, anchor, .BText el, d => .ok (.BText el, beforeD anchor el d)
  | _ + 1, anchor, .BHtml html _ selfAnchor _, d =>
    let p := parseHTML html d.nextId
    let content := p.1.map DNode.nid
    let el := content.head?
    let d1 := { d with nextId := p.2, detached := d.detached ++ p.1 }
    let d2 := beforeD anchor selfAnchor d1
    let d3 := insertAllBefore selfAnchor content d2
    .ok (.BHtml html content selfAnchor el, d3)
  | fu + 1, anchor, .BNode template children anchors0 data handlers _, d =>
    match BNodeBuild template children anchors0 handlers d with
    | .ok (elId, anchors', d1) =>
      match children with
      | some cs =>
        match anchors' with
        | some ancs =>
          match BNode.mountChildren fu cs ancs d1 with
          | .ok (cs', d2) =>
            let d3 := beforeD anchor elId d2
            .ok (.BNode template (some cs') anchors' data handlers (some elId), d3)
          | .fault => .fault
          | .nofuel => .nofuel
        | none => .fault
      | none =>
        let d3 := beforeD anchor elId d1
        .ok (.BNode template none anchors' data handlers (some elId), d3)
    | .fault => .fault
    | .nofuel => .nofuel
  | fu + 1, anchor, .BMulti cs _, d =>
    match BMulti.mountSlots fu anchor cs d with
    | .ok (cs', ancs', d') => .ok (.BMulti cs' ancs', d')
    | .fault => .fault
    | .nofuel => .nofuel
  | fu + 1, anchor, .BCollection cs _, d =>
    let r := createTextNode "" d
    let d2 := beforeD anchor r.1 r.2
    match BCollection.mountChildren fu r.1 cs d2 with
    | .ok (cs', d3) => .ok (.BCollection cs' (some r.1), d3)
    | .fault => .fault
    | .nofuel => .nofuel

/-- The child-mounting loop of BNode.mountBefore: for each index, skip an
empty slot; for a present child take this.anchors[i] (walked in step with the
children) and mount the child before it.  An exhausted anchors array yields an
undefined anchor, which faults when the child's mountBefore dereferences
it. -/
def BNode.mountChildren : Nat → List (Option Block) → List Nat → Doc →
    Res (List (Option Block) × Doc)
  | 0, _, _, _ => .nofuel
  | _ + 1, [], _, d => .ok ([], d)
  | fu + 1, none :: cs, ancs, d =>
    match BNode.mountChildren fu cs ancs.tail d with
    | .ok (cs', d') => .ok (none :: cs', d')
    | .fault => .fault
    | .nofuel => .nofuel
  | fu + 1, some c :: cs, ancs, d =>
    match ancs with
    | [] => .fault
    | a :: ancs' =>
      match Block.mountBefore fu a c d with
      | .ok (c', d') =>
        match BNode.mountChildren fu cs ancs' d' with
        | .ok (cs', d'') => .ok (some c' :: cs', d'')
        | .fault => .fault
        | .nofuel => .nofuel
      | .fault => .fault
      | .nofuel => .nofuel

/-- The slot loop of BMulti.mountBefore: per slot create a fresh marker,
insert it before the given anchor, record it in anchors, and when the slot
holds a child, mount the child before the marker. -/
def BMulti.mountSlots : Nat → Nat → List (Option Block) → Doc →
    Res (List (Option Block) × List (Option Nat) × Doc)
  | 0, _, _, _ => .nofuel
  | _ + 1, _, [], d => .ok ([], [], d)
  | fu + 1, anchor, c :: cs, d =>
    let r := createTextNode "" d
    let d2 := beforeD anchor r.1 r.2
    match c with
    | some b =>
      match Block.mountBefore fu r.1 b d2 with
      | .ok (b', d3) =>
        match BMulti.mountSlots fu anchor cs d3 with
        | .ok (cs', ancs', d4) => .ok (some b' :: cs', some r.1 :: ancs', d4)
        | .fault => .fault
        | .nofuel => .nofuel
      | .fault => .fault
      | .nofuel => .nofuel
    | none =>
      match BMulti.mountSlots fu anchor cs d2 with
      | .ok (cs', ancs', d3) => .ok (none :: cs', some r.1 :: ancs', d3)
      | .fault => .fault
      | .nofuel => .nofuel

/-- The child loop of BCollection.mountBefore: for..of over children mounts
each child before the collection's own marker; an empty slot is the undefined
of a new Array(n) hole and child.mountBefore faults on it. -/
def BCollection.mountChildren : Nat → Nat → List (Option Block) → Doc →
    Res (List (Option Block) × Doc)
  | 0, _, _, _ => .nofuel
  | _ + 1, _, [], d => .ok ([], d)
  | _ + 1, _, none :: _, _ => .fault
  | fu + 1, a, some c :: cs, d =>
    match Block.mountBefore fu a c d with
    | .ok (c', d') =>
      match BCollection.mountChildren fu a cs d' with
      | .ok (cs', d'') => .ok (some c' :: cs', d'')
      | .fault => .fault
      | .nofuel => .nofuel
    | .fault => .fault
    | .nofuel => .nofuel

/-- patch(other), dispatched over the five variants.
BText: this.el.textContent = other.el.textContent.
BHtml: remove every current content node, re-run build — which parses
this.html, the block's own original markup, since patch never copies
other.html — and insert the rebuilt content before this.anchor.
BNode: this.data = newTree.data, update (stub), then the slot loop over
newTree.children.
BMulti: the slot loop over this.children; the source writes
this.children[0] = null in its remove branch, which is applied after the walk
(slot 0 is only read at step 0, before any write to it, so the deferred write
is observationally the same).
BCollection: patch() {} — a no-op.
Patching a block against a different variant is outside the structural
compatibility contract of section 4.1 and is mapped to a fault. -/
def Block.patch : Nat → Block → Block → Doc → Res (Block × Doc)
  | 0, _, _, _ => .nofuel
  | _ + 1, .BText el, other, d =>
    match other with
    | .BText el2 =>
      match getTextD el2 d with
      | some s => .ok (.BText el, setTextD el s d)
      | none => .fault
    | _ => .fault
  | _ + 1, .BHtml html content anchor _, _, d =>
    let d1 := removeAll content d
    let p := parseHTML html d1.nextId
    let content' := p.1.map DNode.nid
    let el' := content'.head?
    let d2 := { d1 with nextId := p.2, detached := d1.detached ++ p.1 }
    let d3 := insertAllBefore anchor content' d2
    .ok (.BHtml html content' anchor el', d3)
  | fu + 1, .BNode template children anchors _ handlers el, other, d =>
    match other with
    | .BNode _ nChildren _ nData _ _ =>
      match children with
      | some cs =>
        match nChildren with
        | some ncs =>
          match BNode.patchChildren fu cs ncs anchors d with
          | .ok (cs', d') =>
            .ok (.BNode template (some cs') anchors nData handlers el, d')
          | .fault => .fault
          | .nofuel => .nofuel
        | none => .fault
      | none => .ok (.BNode template none anchors nData handlers el, d)
    | _ => .fault
  | fu + 1, .BMulti cs ancs, other, d =>
    match other with
    | .BMulti ncs _ =>
      match BMulti.patchSlots fu cs ncs ancs d with
      | .ok (cs', removedAny, d') =>
        let cs'' := if removedAny then setSlot0None cs' else cs'
        .ok (.BMulti cs'' ancs, d')
      | .fault => .fault
      | .nofuel => .nofuel
    | _ => .fault
  | _ + 1, .BCollection cs a, _, d => .ok (.BCollection cs a, d)

/-- The slot loop of BNode.patch, driven by newTree.children: reading
this.children[i] past its length yields undefined (an absent child).
Both present: child.patch(newChild).  Present then absent:
children[i] = null and child.remove().  Absent then present:
children[i] = newChild and newChild.mountBefore(this.anchors[i]) — a null
anchors array or an exhausted one faults.  Both absent: no write.  Slots of
this.children past newTree.children.length are left untouched. -/
def BNode.patchChildren : Nat → List (Option Block) → List (Option Block) →
    Option (List Nat) → Doc → Res (List (Option Block) × Doc)
  | 0, _, _, _, _ => .nofuel
  | _ + 1, olds, [], _, d => .ok (olds, d)
  | fu + 1, olds, nc :: ncs, ancs, d =>
    let old := olds.headD none
    let olds' := olds.tail
    let ancs' := ancs.map List.tail
    match old, nc with
    | some c, some n =>
      match Block.patch fu c n d with
      | .ok (c', d') =>
        match BNode.patchChildren fu olds' ncs ancs' d' with
        | .ok (rest, d'') => .ok (some c' :: rest, d'')
        | .fault => .fault
        | .nofuel => .nofuel
      | .fault => .fault
      | .nofuel => .nofuel
    | some c, none =>
      match Block.remove fu c d with
      | .ok d' =>
        match BNode.patchChildren fu olds' ncs ancs' d' with
        | .ok (rest, d'') => .ok (none :: rest, d'')
        | .fault => .fault
        | .nofuel => .nofuel
      | .fault => .fault
      | .nofuel => .nofuel
    | none, some n =>
      match ancs with
      | none => .fault
      | some [] => .fault
      | some (a :: _) =>
        match Block.mountBefore fu a n d with
        | .ok (n', d') =>
          match BNode.patchChildren fu olds' ncs ancs' d' with
          | .ok (rest, d'') => .ok (some n' :: rest, d'')
          | .fault => .fault
          | .nofuel => .nofuel
        | .fault => .fault
        | .nofuel => .nofuel
    | none, none =>
      match BNode.patchChildren fu olds' ncs ancs' d with
      | .ok (rest, d') => .ok (none :: rest, d')
      | .fault => .fault
      | .nofuel => .nofuel

/-- The slot loop of BMulti.patch, driven by this.children: reading
newTree.children[i] past its length yields undefined (absent).  Both present:
block.patch(newBlock).  Present then absent: the source writes
this.children[0] = null — index 0, not i — and block.remove(); the walk keeps
the stale slot value and reports that a removal occurred, and the caller
applies the slot-0 write.  Absent then present: this.children[i] = newBlock
and newBlock.mountBefore(this.anchors[i]) — an empty or exhausted anchors slot
faults.  Both absent: no write. -/
def BMulti.patchSlots : Nat → List (Option Block) → List (Option Block) →
    List (Option Nat) → Doc → Res (List (Option Block) × Bool × Doc)
  | 0, _, _, _, _ => .nofuel
  | _ + 1, [], _, _, d => .ok ([], false, d)
  | fu + 1, old :: olds, news, ancs, d =>
    let nb := news.headD none
    let news' := news.tail
    let ancs' := ancs.tail
    match old, nb with
    | some b, some n =>
      match Block.patch fu b n d with
      | .ok (b', d') =>
        match BMulti.patchSlots fu olds news' ancs' d' with
        | .ok (rest, rem, d'') => .ok (some b' :: rest, rem, d'')
        | .fault => .fault
        | .nofuel => .nofuel
      | .fault => .fault
      | .nofuel => .nofuel
    | some b, none =>
      match Block.remove fu b d with
      | .ok d' =>
        match BMulti.patchSlots fu olds news' ancs' d' with
        | .ok (rest, _, d'') => .ok (some b :: rest, true, d'')
        | .fault => .fault
        | .nofuel => .nofuel
      | .fault => .fault
      | .nofuel => .nofuel
    | none, some n =>
      match ancs.headD none with
      | none => .fault
      | some a =>
        match Block.mountBefore fu a n d with
        | .ok (n', d') =>
          match BMulti.patchSlots fu olds news' ancs' d' with
          | .ok (rest, rem, d'') => .ok (some n' :: rest, rem, d'')
          | .fault => .fault
          | .nofuel => .nofuel
        | .fault => .fault
        | .nofuel => .nofuel
    | none, none =>
      match BMulti.patchSlots fu olds news' ancs' d with
      | .ok (rest, rem, d') => .ok (none :: rest, rem, d')
      | .fault => .fault
      | .nofuel => .nofuel

/-- remove(), dispatched over the five variants.
BText and BCollection do not override the base class: remove() {} is a no-op.
BHtml: remove each content node, then the trailing anchor.
BNode: this.el.remove() — null el faults.
BMulti: the explicit slot loop. -/
def Block.remove : Nat → Block → Doc → Res Doc
  | 0, _, _ => .nofuel
  | _ + 1, .BText _, d => .ok d
  | _ + 1, .BHtml _ content anchor _, d => .ok (removeD anchor (removeAll content d))
  | _ + 1, .BNode _ _ _ _ _ el, d =>
    match el with
    | some e => .ok (removeD e d)
    | none => .fault
  | fu + 1, .BMulti cs ancs, d => BMulti.removeSlots fu cs ancs d
  | _ + 1, .BCollection _ _, d => .ok d

/-- The slot loop of BMulti.remove: this.children[i]!.remove() then
this.anchors[i].remove(); an empty child slot is a null dereference and
faults, as does an empty anchors slot. -/
def BMulti.removeSlots : Nat → List (Option Block) → List (Option Nat) → Doc → Res Doc
  | 0, _, _, _ => .nofuel
  | _ + 1, [], _, d => .ok d
  | fu + 1, c :: cs, ancs, d =>
    match c with
    | none => .fault
    | some b =>
      match Block.remove fu b d with
      | .ok d' =>
        match ancs.headD none with
        | none => .fault
        | some a => BMulti.removeSlots fu cs ancs.tail (removeD a d')
      | .fault => .fault
      | .nofuel => .nofuel

end

/-- mount(parent): create a throwaway marker, append it to the container, run
mountBefore on it, then remove the marker. -/
def Block.mount (fu : Nat) (b : Block) (d : Doc) : Res (Block × Doc) :=
  let r := createTextNode "" d
  let d2 := appendChildD r.1 r.2
  match Block.mountBefore fu r.1 b d2 with
  | .ok (b', d3) => .ok (b', removeD r.1 d3)
  | .fault => .fault
  | .nofuel => .nofuel

/-- BHtml.toString(): the stored markup string. -/
def BHtml.asString : Block → Option String
  | .BHtml h _ _ _ => some h
  | _ => none

/-- BText.toString(): this.el.textContent. -/
def BText.asString (b : Block) (d : Doc) : Option String :=
  match b with
  | .BText el => getTextD el d
  | _ => none

/-- Presence (non-null) of each child slot of a composite block. -/
def Block.childrenPresence : Block → List Bool
  | .BNode _ (some cs) _ _ _ _ => cs.map Option.isSome
  | .BMulti cs _ => cs.map Option.isSome
  | .BCollection cs _ => cs.map Option.isSome
  | _ => []

/-- The thunk invoked when the listener registered for handler index i of this
block fires: the closure of setupHandler evaluates this.handlers[index][1] at
invocation time, on the block as it then stands. -/
def Block.invokeListener (b : Block) (i : Nat) : Option Nat :=
  match b with
  | .BNode _ _ _ _ (some hs) _ => (hs.get? i).map (fun h => h.2)
  | _ => none

/-- Text content of a host node when it is a text leaf. -/
def DNode.textOf : DNode → Option String
  | .text _ s => some s
  | .elem _ _ _ => none

/-- Structural content of a node list, identities ignored: the shape used to
compare parsed markup for content fidelity rather than reference equality. -/
def contentShape (l : List DNode) : List (Option String) := l.map DNode.textOf

/-- Text contents of the nodes with the given identities, looked up in the
document. -/
def textsOfIds (ids : List Nat) (d : Doc) : List (Option String) :=
  ids.map (fun i => getTextD i d)

def Block.textEl : Block → Option Nat
  | .BText e => some e
  | _ => none

def Block.contentIds : Block → List Nat
  | .BHtml _ c _ _ => c
  | _ => []

def Block.childrenLen : Block → Option Nat
  | .BNode _ (some cs) _ _ _ _ => some cs.length
  | _ => none

def Block.anchorsLen : Block → Option Nat
  | .BNode _ _ (some l) _ _ _ => some l.length
  | _ => none

def Block.anchorsOf : Block → Option (List Nat)
  | .BNode _ _ a _ _ _ => a
  | _ => none

def Block.collAnchor : Block → Option Nat
  | .BCollection _ a => a
  | _ => none

def Block.handlersOf : Block → Option (List (String × Nat))
  | .BNode _ _ _ _ hs _ => hs
  | _ => none

def Block.dataOf : Block → Option (List Nat)
  | .BNode _ _ _ dt _ _ => dt
  | _ => none

/-- A minimal compiled-template Node block: a childless span template, no
dynamic slots, no data, no handlers. -/
def spanTpl : DNode := DNode.elem 1000 "span" []

def spanNode : Block := newBNode spanTpl none none none

/-- Concrete Html-block flow for the patch claim: a block built from markup
"a" and a successor built from markup "b", sharing one document; the first
block is mounted into the empty container and then patched with the
successor. -/
def htmlA : Block × Doc := newBHtml "a" emptyDoc

def htmlB : Block × Doc := newBHtml "b" htmlA.2

def htmlPatched : Res (Block × Doc) :=
  (Block.mount 10 htmlA.1 htmlB.2).bind (fun r => Block.patch 10 r.1 htmlB.1 r.2)

/-- Concrete Multi-block flow for the patch claim: a mounted two-slot Multi
block whose slot 0 is empty and slot 1 holds a Node block, patched with a
successor whose slots are both empty (slot 1 goes present to absent). -/
def multiOld : Block := Block.BMulti [none, some spanNode] (List.replicate 2 none)

def multiNew : Block := Block.BMulti [none, none] (List.replicate 2 none)

def multiPatched : Res (Block × Doc) :=
  (Block.mount 10 multiOld emptyDoc).bind (fun r => Block.patch 10 r.1 multiNew r.2)

/-- Concrete Text-block flow: a Text block holding "x" mounted into the empty
container (its leaf has identity 0). -/
def textFlow : Block × Doc := newBText "x" emptyDoc

def textMounted : Res (Block × Doc) := Block.mount 10 textFlow.1 textFlow.2

/-- Concrete Multi-block flow with an absent slot: new BMulti(1) mounted into
the empty container, every slot empty. -/
def multiEmptyMounted : Res (Block × Doc) := Block.mount 10 (newBMulti 1) emptyDoc

/-- Concrete Html-block flow for the round-trip claim: a block built from
markup "x" mounted into the empty container, then patched with a successor
built from markup M = "y". -/
def htmlX : Block × Doc := newBHtml "x" emptyDoc

def htmlY : Block × Doc := newBHtml "y" htmlX.2

def htmlXPatched : Res (Block × Doc) :=
  (Block.mount 10 htmlX.1 htmlY.2).bind (fun r => Block.patch 10 r.1 htmlY.1 r.2)

/-- The listener registrations produced by wiring handlers hs on element el
starting at handler index idx: one record per handler, in index order. -/
def listenerRecs (el : Nat) (hs : List (String × Nat)) (idx : Nat) :
    List (Nat × String × Nat) :=
  match hs with
  | [] => []
  | (ev, _) :: rest => (el, ev, idx) :: listenerRecs el rest (idx + 1)

/-- Concrete handler flow: a childless Node block with one click handler
whose thunk is 1, mounted into the empty container, patched with a successor
whose click thunk is 2. -/
def handlerOld : Block := newBNode spanTpl none none (some [("click", 1)])

def handlerNew : Block := newBNode spanTpl none none (some [("click", 2)])

def handlerPatched : Res (Block × Doc) :=
  (Block.mount 10 handlerOld emptyDoc).bind (fun r => Block.patch 10 r.1 handlerNew r.2)

/-- Concrete removal flows: a mounted Html block, a mounted childless Node
block, and a mounted one-slot Multi block holding a Node child. -/
def htmlZMounted : Res (Block × Doc) :=
  Block.mount 10 (newBHtml "z" emptyDoc).1 (newBHtml "z" emptyDoc).2

def spanMounted : Res (Block × Doc) := Block.mount 10 spanNode emptyDoc

def multiOneBlock : Block := Block.BMulti [some spanNode] [none]

def multiOneMounted : Res (Block × Doc) := Block.mount 10 multiOneBlock emptyDoc

/-- Concrete heterogeneous collection flow from the spec's scenario: a
Collection block holding a Text block ("t"), a childless Node block and an
Html block ("h"), mounted into the empty container. -/
def collThreeDoc : Doc := (newBHtml "h" (newBText "t" emptyDoc).2).2

def collThree : Block :=
  Block.BCollection [some (newBText "t" emptyDoc).1, some spanNode,
    some (newBHtml "h" (newBText "t" emptyDoc).2).1] none

def collThreeMounted : Res (Block × Doc) := Block.mount 20 collThree collThreeDoc

/-- Follows the spec's words: the documented per-slot transition of the Node
block's child reconciliation at slot i — both absent: no-op (slot stays
empty); old present, new absent: the slot is nulled and the old child was
removed; old absent, new present: the new child was mounted before that
slot's marker and installed in the slot; both present: the retained old
child was recursively patched with the new one and stays installed. -/
def SlotTable (olds news : List (Option Block)) (ancsl : List Nat)
    (res : List (Option Block)) (i : Nat) : Prop :=
  (olds.getD i none = none → news.getD i none = none → res.getD i none = none)
  ∧ (∀ c, olds.getD i none = some c → news.getD i none = none →
      res.getD i none = none
      ∧ ∃ (f : Nat) (da db : Doc), Block.remove f c da = .ok db)
  ∧ (∀ n, olds.getD i none = none → news.getD i none = some n →
      ∃ (n' : Block) (f : Nat) (da db : Doc),
        Block.mountBefore f (ancsl.getD i 0) n da = .ok (n', db)
        ∧ res.getD i none = some n')
  ∧ (∀ c n, olds.getD i none = some c → news.getD i none = some n →
      ∃ (c' : Block) (f : Nat) (da db : Doc),
        Block.patch f c n da = .ok (c', db) ∧ res.getD i none = some c')

/-- Concrete one-slot Node flow from the spec's scenario: a Node block whose
single slot holds a childless Node child, mounted into the empty container
and patched with a same-shape successor whose slot is empty. -/
def tplOne : DNode := DNode.elem 900 "div" [DNode.elem 901 "owl-anchor" []]

def nodeOneChildOld : Block := newBNode tplOne (some [some spanNode]) none none

def nodeOneChildNew : Block := newBNode tplOne (some [none]) none none

def nodeOnePatched : Res (Block × Doc) :=
  (Block.mount 20 nodeOneChildOld emptyDoc).bind
    (fun r => Block.patch 20 r.1 nodeOneChildNew r.2)

/-- A two-node document used to instantiate slot-transition statements: two
live text leaves with identities 0 and 1. -/
def slotDoc : Doc :=
  { live := [DNode.text 0 "p", DNode.text 1 "q"], detached := [], listeners := [], nextId := 2 }


mutual
/-- No element with the given tag strictly contains another one: the shape
under which each live-collection replacement step of build consumes exactly
one placeholder. -/
def noNestedN (tg : String) : DNode → Bool
  | .text _ _ => true
  | .elem _ t kids => if t == tg then countTagL tg kids == 0 else noNestedL tg kids
def noNestedL (tg : String) : List DNode → Bool
  | [] => true
  | k :: ks => noNestedN tg k && noNestedL tg ks
end

def noNestedUnder (tg : String) : DNode → Bool
  | .text _ _ => true
  | .elem _ _ kids => noNestedL tg kids

def tplTwo : DNode :=
  DNode.elem 800 "div" [DNode.elem 801 "owl-anchor" [], DNode.elem 802 "owl-anchor" []]

/-- Small documents with distinct live identities, used to instantiate the
removal statements: two live text leaves (identities 0 and 2), and one live
span element (identity 5). -/
def twoLiveDoc : Doc :=
  { live := [DNode.text 0 "", DNode.text 2 "w"], detached := [], listeners := [], nextId := 3 }

def oneLiveDoc : Doc :=
  { live := [DNode.elem 5 "span" []], detached := [], listeners := [], nextId := 6 }

theorem removeSlots_ok_all_present : ∀ (cs : List (Option Block)) (fu : Nat)
    (ancs : List (Option Nat)) (d d' : Doc),
    BMulti.removeSlots fu cs ancs d = .ok d' → cs.all Option.isSome = true := by
  intro cs
  induction cs with
  | nil => intro fu ancs d d' _; rfl
  | cons c cs ih =>
    intro fu ancs d d' h
    cases fu with
    | zero => cases h
    | succ fu =>
      cases c with
      | none => cases h
      | some b =>
        simp only [BMulti.removeSlots] at h
        cases hrm : Block.remove fu b d with
        | ok d1 =>
          rw [hrm] at h
          dsimp only at h
          cases hhd : ancs.headD none with
          | none => rw [hhd] at h; cases h
          | some a =>
            rw [hhd] at h
            simp only [List.all_cons, Option.isSome_some, Bool.true_and]
            exact ih fu ancs.tail (removeD a d1) d' h
        | fault => rw [hrm] at h; cases h
        | nofuel => rw [hrm] at h; cases h

/-- C1: for a mounted Html block patched with a successor, the claim says the
successor's markup is parsed.  The source's BHtml.patch never reads other:
it removes the current content, re-runs build — which parses this.html, the
block's original markup — and inserts that before the unchanged trailing
marker.  At the concrete input (original markup "a", successor markup "b")
the patch succeeds, the old leaf (identity 3) is removed from the live tree
and the new content stands before the original anchor (identity 0), but its
content is the parse of "a", not of "b": the middle conjunct of the claim is
false on the code.  The first conjunct shows the root cause for every input:
patch on an Html block succeeds with the stored markup string unchanged,
whatever the successor is — other is never read. -/
theorem C1_html_patch_reparses_original :
    (∀ (fu : Nat) (hstr : String) (content : List Nat) (anchor : Nat)
        (el : Option Nat) (other : Block) (d : Doc),
        ∃ (content' : List Nat) (el' : Option Nat) (d' : Doc),
          Block.patch (fu + 1) (.BHtml hstr content anchor el) other d
            = .ok (.BHtml hstr content' anchor el', d'))
    ∧ htmlPatched.toOption.map (fun r => BHtml.asString r.1) = some (some "a")
    ∧ htmlPatched.toOption.map (fun r => textsOfIds r.1.contentIds r.2)
        = some (contentShape (parseHTML "a" 0).1)
    ∧ htmlPatched.toOption.map (fun r => textsOfIds r.1.contentIds r.2)
        ≠ some (contentShape (parseHTML "b" 0).1)
    ∧ htmlPatched.toOption.map (fun r => inLiveD 3 r.2) = some false
    ∧ htmlPatched.toOption.map (fun r => inLiveD 0 r.2) = some true
    ∧ htmlPatched.toOption.map (fun r => liveIdsD r.2) = some [4, 0] :=
  ⟨fun _ _ _ _ _ _ _ => ⟨_, _, _, rfl⟩, by decide⟩

/-- C2: the claim says the present-to-absent transition at slot i nulls slot
i.  The source's BMulti.patch writes this.children[0] = null in that branch —
index 0, not i.  At the concrete input (slot 1 present to absent), after a
successful patch the old child's root (identity 3) is indeed removed from the
live tree and both markers remain, but the slot presence pattern is
[false, true]: slot 1 still holds the removed child and slot 0 was nulled
instead, refuting the claim at index i = 1. -/
theorem C2_multi_patch_nulls_slot_zero :
    multiPatched.toOption.map (fun r => r.1.childrenPresence) = some [false, true]
    ∧ multiPatched.toOption.map (fun r => r.1.childrenPresence) ≠ some [false, false]
    ∧ multiPatched.toOption.map (fun r => inLiveD 3 r.2) = some false
    ∧ multiPatched.toOption.map (fun r => (inLiveD 1 r.2, inLiveD 2 r.2))
        = some (true, true) := by
  decide

/-- C3 counterexample: the claim says that after removing a mounted Text
block its text leaf is no longer in the live tree.  BText does not override
remove, so the inherited Block.remove() {} is a no-op: at the concrete input
the removal succeeds and the leaf (identity 0) is still in the live tree. -/
theorem C3_counterexample_text_remove_leaf_stays :
    textMounted.toOption.map
        (fun r => (Block.remove 10 r.1 r.2).toOption.map (fun d => inLiveD 0 d))
      = some (some true) := by
  decide

/-- C6: the claim says remove() on a mounted Multi block with absent slots
succeeds and skips them.  The source's BMulti.remove runs
this.children[i]!.remove() unguarded, a null dereference on an absent slot:
at the concrete input (a mounted one-slot Multi block with its slot empty,
its marker live) the removal faults.  The final conjunct shows the general
shape: a removal of a Multi block can only succeed when every slot is
present. -/
theorem C6_multi_remove_faults_on_absent_slot :
    multiEmptyMounted.toOption.map (fun r => r.1.childrenPresence) = some [false]
    ∧ multiEmptyMounted.toOption.map (fun r => inLiveD 1 r.2) = some true
    ∧ multiEmptyMounted.toOption.map (fun r => (Block.remove 10 r.1 r.2).isFault)
        = some true
    ∧ (∀ (fu : Nat) (cs : List (Option Block)) (ancs : List (Option Nat)) (d d' : Doc),
        Block.remove (fu + 1) (.BMulti cs ancs) d = .ok d' →
        cs.all Option.isSome = true) :=
  ⟨by decide, by decide, by decide,
   fun fu cs ancs d d' h => removeSlots_ok_all_present cs fu ancs d d' h⟩

theorem C6_multi_remove_faults_on_absent_slot_witness :
    ([some (Block.BText 0)] : List (Option Block)).all Option.isSome = true :=
  C6_multi_remove_faults_on_absent_slot.2.2.2 9 [some (.BText 0)] [some 1] slotDoc _ rfl

/-- C7: the claim says that patching with a successor built from markup M and
then serializing yields content structurally equal to parsing M
independently.  Since BHtml.patch never copies other.html and BHtml.toString
returns this.html, at the concrete input M = "y" (original markup "x") the
serialization still yields "x" and the live content is the parse of "x": both
differ structurally from the parse of M, refuting the round trip.  The first
conjunct shows the failure for every input: serializing after any successful
patch always returns the block's own stored markup, never the successor's. -/
theorem C7_html_roundtrip_fails_original_kept :
    (∀ (fu : Nat) (hstr : String) (content : List Nat) (anchor : Nat)
        (el : Option Nat) (other : Block) (d : Doc),
        (Block.patch (fu + 1) (.BHtml hstr content anchor el) other d).toOption.map
            (fun r => BHtml.asString r.1)
          = some (some hstr))
    ∧ htmlXPatched.toOption.map (fun r => BHtml.asString r.1) = some (some "x")
    ∧ htmlXPatched.toOption.map (fun r => BHtml.asString r.1) ≠ some (some "y")
    ∧ htmlXPatched.toOption.map (fun r => textsOfIds r.1.contentIds r.2)
        = some (contentShape (parseHTML "x" 0).1)
    ∧ htmlXPatched.toOption.map (fun r => textsOfIds r.1.contentIds r.2)
        ≠ some (contentShape (parseHTML "y" 0).1) :=
  ⟨fun _ _ _ _ _ _ _ => rfl, by decide⟩

theorem takeNodeD_listeners (i : Nat) (d : Doc) :
    (takeNodeD i d).2.listeners = d.listeners := by
  unfold takeNodeD
  split
  · rfl
  · split
    · rfl
    · rfl

theorem beforeD_listeners (t x : Nat) (d : Doc) :
    (beforeD t x d).listeners = d.listeners := by
  rcases h : takeNodeD x d with ⟨o, d'⟩
  have hl : d'.listeners = d.listeners := by
    have h2 := takeNodeD_listeners x d
    rw [h] at h2
    exact h2
  unfold beforeD
  rw [h]
  split
  · cases o with
    | none => rfl
    | some n =>
      cases hi : insertBeforeL t n d'.live with
      | some live' => simp [hi, hl]
      | none =>
        cases hj : insertBeforeInside t n d'.detached with
        | some det' => simp [hi, hj, hl]
        | none => simp [hi, hj]
  · rfl

theorem setupHandlersGo_listeners (hs : List (String × Nat)) (el idx : Nat) (d : Doc) :
    (setupHandlersGo el hs idx d).listeners = d.listeners ++ listenerRecs el hs idx := by
  induction hs generalizing idx d with
  | nil => simp [setupHandlersGo, listenerRecs]
  | cons h rest ih =>
    obtain ⟨ev, th⟩ := h
    simp [setupHandlersGo, listenerRecs, ih, addEventListenerD]

theorem listenerRecs_indices (hs : List (String × Nat)) (el idx : Nat) :
    (listenerRecs el hs idx).map (fun r => r.2.2) = List.range' idx hs.length := by
  induction hs generalizing idx with
  | nil => rfl
  | cons h rest ih => simp [listenerRecs, ih, List.range'_succ]

theorem cloneNodeFresh_root_nid (t : DNode) (n : Nat) :
    (cloneNodeFresh t n).1.nid = n := by
  cases t <;> rfl


theorem idsN_head : ∀ (t : DNode), idsN t = t.nid :: (idsN t).tail
  | .text _ _ => rfl
  | .elem _ _ _ => rfl

mutual
theorem containsIdN_iff : ∀ (t : DNode) (i : Nat), containsIdN i t = true ↔ i ∈ idsN t
  | .text j s, i => by
      simp only [containsIdN, idsN, List.mem_singleton, beq_iff_eq]
      exact ⟨fun h => h ▸ rfl, fun h => h.symm⟩
  | .elem j tg kids, i => by
      simp only [containsIdN, idsN, List.mem_cons, Bool.or_eq_true, beq_iff_eq,
        containsIdL_iff kids i]
      constructor
      · rintro (h | h)
        · exact Or.inl h.symm
        · exact Or.inr h
      · rintro (h | h)
        · exact Or.inl h.symm
        · exact Or.inr h
theorem containsIdL_iff : ∀ (l : List DNode) (i : Nat), containsIdL i l = true ↔ i ∈ idsL l
  | [], i => by simp [containsIdL, idsL]
  | k :: ks, i => by
      simp only [containsIdL, idsL, List.mem_append, Bool.or_eq_true,
        containsIdN_iff k i, containsIdL_iff ks i]
end

theorem containsIdL_eq_false (l : List DNode) (i : Nat) :
    containsIdL i l = false ↔ i ∉ idsL l := by
  rw [← containsIdL_iff l i]
  cases containsIdL i l <;> simp

theorem nid_mem_idsN : ∀ (t : DNode), t.nid ∈ idsN t
  | .text _ _ => List.mem_singleton.mpr rfl
  | .elem _ _ _ => List.mem_cons_self _ _

mutual
theorem extractN_some_spec : ∀ (t : DNode) (i : Nat) (x : DNode) (t' : DNode),
    extractN i t = (some x, t') →
    ∃ p s, idsN t = p ++ idsN x ++ s ∧ idsN t' = p ++ s ∧ x.nid = i
  | .text j s0 => by
      intro i x t' h
      simp [extractN] at h
  | .elem j tg kids => by
      intro i x t' h
      simp only [extractN] at h
      rcases hk : extractL i kids with ⟨o, kids'⟩
      rw [hk] at h
      dsimp only at h
      rw [Prod.mk.injEq] at h
      obtain ⟨h1, h2⟩ := h
      subst h1
      subst h2
      obtain ⟨p, s, e1, e2, e3⟩ := extractL_some_spec kids i x kids' hk
      refine ⟨j :: p, s, ?_, ?_, e3⟩
      · simp [idsN, e1]
      · simp [idsN, e2]
theorem extractN_none_spec : ∀ (t : DNode) (i : Nat) (t' : DNode),
    extractN i t = (none, t') → t' = t ∧ i ∉ (idsN t).tail
  | .text j s0 => by
      intro i t' h
      simp only [extractN] at h
      rw [Prod.mk.injEq] at h
      exact ⟨h.2.symm, by simp [idsN]⟩
  | .elem j tg kids => by
      intro i t' h
      simp only [extractN] at h
      rcases hk : extractL i kids with ⟨o, kids'⟩
      rw [hk] at h
      dsimp only at h
      rw [Prod.mk.injEq] at h
      obtain ⟨h1, h2⟩ := h
      subst h1
      subst h2
      obtain ⟨hkk, hni⟩ := extractL_none_spec kids i kids' hk
      subst hkk
      exact ⟨rfl, by simpa [idsN] using hni⟩
theorem extractL_some_spec : ∀ (l : List DNode) (i : Nat) (x : DNode) (l' : List DNode),
    extractL i l = (some x, l') →
    ∃ p s, idsL l = p ++ idsN x ++ s ∧ idsL l' = p ++ s ∧ x.nid = i
  | [] => by
      intro i x l' h
      simp [extractL] at h
  | k :: ks => by
      intro i x l' h
      simp only [extractL] at h
      by_cases hg : (k.nid == i) = true
      · rw [if_pos hg] at h
        rw [Prod.mk.injEq] at h
        obtain ⟨h1, h2⟩ := h
        injection h1 with h1
        subst h1
        subst h2
        exact ⟨[], idsL ks, by simp [idsL], by simp, by simpa using hg⟩
      · rw [if_neg hg] at h
        rcases hk : extractN i k with ⟨o, k'⟩
        rw [hk] at h
        cases o with
        | some x0 =>
          dsimp only at h
          rw [Prod.mk.injEq] at h
          obtain ⟨h1, h2⟩ := h
          injection h1 with h1
          subst h1
          subst h2
          obtain ⟨p, s, e1, e2, e3⟩ := extractN_some_spec k i _ k' hk
          refine ⟨p, s ++ idsL ks, ?_, ?_, e3⟩
          · simp [idsL, e1]
          · simp [idsL, e2]
        | none =>
          dsimp only at h
          rcases hks : extractL i ks with ⟨o2, ks'⟩
          rw [hks] at h
          dsimp only at h
          rw [Prod.mk.injEq] at h
          obtain ⟨h1, h2⟩ := h
          subst h1
          subst h2
          obtain ⟨hkk, _⟩ := extractN_none_spec k i k' hk
          subst hkk
          obtain ⟨p, s, e1, e2, e3⟩ := extractL_some_spec ks i _ ks' hks
          refine ⟨idsN k' ++ p, s, ?_, ?_, e3⟩
          · simp [idsL, e1]
          · simp [idsL, e2]
theorem extractL_none_spec : ∀ (l : List DNode) (i : Nat) (l' : List DNode),
    extractL i l = (none, l') → l' = l ∧ i ∉ idsL l
  | [] => by
      intro i l' h
      simp only [extractL] at h
      rw [Prod.mk.injEq] at h
      exact ⟨h.2.symm, by simp [idsL]⟩
  | k :: ks => by
      intro i l' h
      simp only [extractL] at h
      by_cases hg : (k.nid == i) = true
      · rw [if_pos hg] at h
        rw [Prod.mk.injEq] at h
        cases h.1
      · rw [if_neg hg] at h
        rcases hk : extractN i k with ⟨o, k'⟩
        rw [hk] at h
        cases o with
        | some x0 =>
          dsimp only at h
          rw [Prod.mk.injEq] at h
          cases h.1
        | none =>
          dsimp only at h
          rcases hks : extractL i ks with ⟨o2, ks'⟩
          rw [hks] at h
          dsimp only at h
          rw [Prod.mk.injEq] at h
          obtain ⟨h1, h2⟩ := h
          subst h1
          subst h2
          obtain ⟨hkk, hni⟩ := extractN_none_spec k i k' hk
          subst hkk
          obtain ⟨hkse, hnis⟩ := extractL_none_spec ks i ks' hks
          subst hkse
          refine ⟨rfl, ?_⟩
          simp only [idsL, List.mem_append, not_or]
          refine ⟨?_, hnis⟩
          rw [idsN_head k']
          simp only [List.mem_cons, not_or]
          refine ⟨?_, hni⟩
          intro hcon
          rw [hcon] at hg
          simp at hg
  end

theorem removeD_live_spec (i : Nat) (d : Doc) :
    ((removeD i d).live = d.live ∧ i ∉ idsL d.live)
    ∨ ∃ (x : DNode) (p s : List Nat),
        idsL d.live = p ++ idsN x ++ s ∧ idsL (removeD i d).live = p ++ s ∧ x.nid = i := by
  unfold removeD
  rcases h : extractL i d.live with ⟨o, live'⟩
  cases o with
  | some x =>
    right
    obtain ⟨p, s, e1, e2, e3⟩ := extractL_some_spec d.live i x live' h
    exact ⟨x, p, s, e1, e2, e3⟩
  | none =>
    left
    obtain ⟨_, hni⟩ := extractL_none_spec d.live i live' h
    rcases h2 : extractInside i d.detached with ⟨o2, det'⟩
    cases o2 <;> exact ⟨rfl, hni⟩

theorem removeD_sub (i j : Nat) (d : Doc) :
    j ∈ idsL (removeD i d).live → j ∈ idsL d.live := by
  intro hj
  rcases removeD_live_spec i d with ⟨h, _⟩ | ⟨x, p, s, e1, e2, _⟩
  · rw [h] at hj
    exact hj
  · rw [e2] at hj
    rw [e1]
    simp only [List.mem_append] at hj ⊢
    tauto

theorem removeD_nodup (i : Nat) (d : Doc) (hnd : (idsL d.live).Nodup) :
    (idsL (removeD i d).live).Nodup := by
  rcases removeD_live_spec i d with ⟨h, _⟩ | ⟨x, p, s, e1, e2, _⟩
  · rw [h]
    exact hnd
  · rw [e2]
    rw [e1] at hnd
    have hsub : (p ++ s).Sublist (p ++ idsN x ++ s) :=
      (List.sublist_append_left p (idsN x)).append (List.Sublist.refl s)
    exact hnd.sublist hsub

theorem removeD_not_contains (i : Nat) (d : Doc) (hnd : (idsL d.live).Nodup) :
    containsIdL i (removeD i d).live = false := by
  rw [containsIdL_eq_false]
  rcases removeD_live_spec i d with ⟨h, hni⟩ | ⟨x, p, s, e1, e2, e3⟩
  · rw [h]
    exact hni
  · rw [e2]
    rw [e1] at hnd
    have hix : i ∈ idsN x := e3 ▸ nid_mem_idsN x
    intro hmem
    rcases List.mem_append.mp hmem with hp | hs
    · have hdisj := (List.nodup_append.mp (List.nodup_append.mp hnd).1).2.2
      exact hdisj hp hix
    · have hdisj := (List.nodup_append.mp hnd).2.2
      exact hdisj (List.mem_append.mpr (Or.inr hix)) hs

theorem removeD_mono (i j : Nat) (d : Doc) (h : containsIdL j d.live = false) :
    containsIdL j (removeD i d).live = false := by
  rw [containsIdL_eq_false] at h ⊢
  intro hj
  exact h (removeD_sub i j d hj)

theorem removeAll_mono (ids : List Nat) (j : Nat) : ∀ (d : Doc),
    containsIdL j d.live = false → containsIdL j (removeAll ids d).live = false := by
  induction ids with
  | nil => intro d h; exact h
  | cons i rest ih => intro d h; exact ih (removeD i d) (removeD_mono i j d h)

theorem removeAll_nodup (ids : List Nat) : ∀ (d : Doc),
    (idsL d.live).Nodup → (idsL (removeAll ids d).live).Nodup := by
  induction ids with
  | nil => intro d h; exact h
  | cons i rest ih => intro d h; exact ih (removeD i d) (removeD_nodup i d h)

theorem removeAll_removes (ids : List Nat) : ∀ (d : Doc), (idsL d.live).Nodup →
    ∀ i ∈ ids, containsIdL i (removeAll ids d).live = false := by
  induction ids with
  | nil => intro d _ i hi; cases hi
  | cons j rest ih =>
    intro d hnd i hi
    rcases List.mem_cons.mp hi with hij | hir
    · subst hij
      exact removeAll_mono rest i (removeD i d) (removeD_not_contains i d hnd)
    · exact ih (removeD j d) (removeD_nodup j d hnd) i hir

/-- C3 amended: remove() is variant-specific.  In any document whose live
node identities are distinct, removing an Html block succeeds and detaches
its trailing anchor and every content leaf, and removing a built Node block
succeeds and detaches its root handle; removing a Multi block proceeds slot
by slot and can only succeed when every slot is present (an absent slot
faults); BText and BCollection do not override the base class no-op
remove() {}, so removing a mounted Text block leaves the document — and its
text leaf's place in the live tree — unchanged.  The concrete conjuncts show
the mounted Multi, Html and Node instances emptying the live tree. -/
theorem C3_amended_remove_ownership :
    (∀ (fu e : Nat) (d : Doc), Block.remove (fu + 1) (.BText e) d = .ok d)
    ∧ (∀ (fu : Nat) (cs : List (Option Block)) (a : Option Nat) (d : Doc),
        Block.remove (fu + 1) (.BCollection cs a) d = .ok d)
    ∧ (∀ (fu : Nat) (hstr : String) (content : List Nat) (anchor : Nat)
        (el : Option Nat) (d : Doc), (idsL d.live).Nodup →
        ∃ d', Block.remove (fu + 1) (.BHtml hstr content anchor el) d = .ok d'
          ∧ inLiveD anchor d' = false
          ∧ ∀ i ∈ content, inLiveD i d' = false)
    ∧ (∀ (fu : Nat) (tpl : DNode) (cs : Option (List (Option Block)))
        (ancs dt : Option (List Nat)) (hs : Option (List (String × Nat)))
        (e : Nat) (d : Doc), (idsL d.live).Nodup →
        ∃ d', Block.remove (fu + 1) (.BNode tpl cs ancs dt hs (some e)) d = .ok d'
          ∧ inLiveD e d' = false)
    ∧ (∀ (fu : Nat) (cs : List (Option Block)) (ancs : List (Option Nat)) (d d' : Doc),
        Block.remove (fu + 1) (.BMulti cs ancs) d = .ok d' → cs.all Option.isSome = true)
    ∧ (multiOneMounted.toOption.map
        (fun r => (Block.remove 10 r.1 r.2).toOption.map liveIdsD) = some (some []))
    ∧ (htmlZMounted.toOption.map
        (fun r => (Block.remove 10 r.1 r.2).toOption.map liveIdsD) = some (some []))
    ∧ (spanMounted.toOption.map
        (fun r => (Block.remove 10 r.1 r.2).toOption.map liveIdsD) = some (some [])) := by
  refine ⟨fun _ _ _ => rfl, fun _ _ _ _ => rfl, ?_, ?_, ?_, by decide, by decide, by decide⟩
  · intro fu hstr content anchor el d hnd
    refine ⟨removeD anchor (removeAll content d), rfl, ?_, ?_⟩
    · exact removeD_not_contains anchor (removeAll content d) (removeAll_nodup content d hnd)
    · intro i hi
      exact removeD_mono anchor i (removeAll content d) (removeAll_removes content d hnd i hi)
  · intro fu tpl cs ancs dt hs e d hnd
    exact ⟨removeD e d, rfl, removeD_not_contains e d hnd⟩
  · intro fu cs ancs d d' h
    exact removeSlots_ok_all_present cs fu ancs d d' h

theorem C3_amended_remove_ownership_witness :
    (∃ d', Block.remove 1 (.BHtml "w" [2] 0 none) twoLiveDoc = .ok d'
      ∧ inLiveD 0 d' = false ∧ ∀ i ∈ [2], inLiveD i d' = false)
    ∧ (∃ d', Block.remove 1 (.BNode spanTpl none none none none (some 5)) oneLiveDoc = .ok d'
      ∧ inLiveD 5 d' = false)
    ∧ ([some (Block.BText 3)] : List (Option Block)).all Option.isSome = true :=
  ⟨C3_amended_remove_ownership.2.2.1 0 "w" [2] 0 none twoLiveDoc (by decide),
   C3_amended_remove_ownership.2.2.2.1 0 spanTpl none none none none 5 oneLiveDoc (by decide),
   C3_amended_remove_ownership.2.2.2.2.1 9 [some (.BText 3)] [some 1] slotDoc _ rfl⟩

/-- C4 counterexample: the claim says that after a patch carrying a new
handler thunk at index i, invoking the listener for index i calls the
successor's thunk.  BNode.patch copies only data, never handlers, so the
closure registered by setupHandler still reads the original block's
handlers: at the concrete input (original click thunk 1, successor click
thunk 2) exactly one listener was registered, and after a successful patch
invoking it still calls thunk 1, not the successor's thunk 2. -/
theorem C4_counterexample_listener_reads_old_thunk :
    handlerPatched.toOption.map (fun r => (r.2.listeners, Block.invokeListener r.1 0))
      = some ([(1, ("click", 0))], some 1)
    ∧ Block.invokeListener handlerNew 0 = some 2
    ∧ handlerPatched.toOption.map (fun r => Block.invokeListener r.1 0)
        ≠ some (Block.invokeListener handlerNew 0) := by
  decide

/-- C4 amended: for Node blocks each event listener is registered exactly
once, at build time — mounting a childless Node block with handler list hs
appends exactly one registration per handler index, in index order, on the
freshly built root — and patch never re-registers a listener; however patch
copies only data, not handlers, so after a patch with a successor carrying
new handler thunks, invoking the listener for index i still calls the
original block's thunk at index i, not the successor's. -/
theorem C4_amended_single_registration_no_rebind :
    (∀ (fu : Nat) (tpl tpl2 : DNode) (ancs ancs2 : Option (List Nat))
        (dt dt2 : Option (List Nat)) (hs hs2 : Option (List (String × Nat)))
        (el el2 : Option Nat) (d : Doc),
        Block.patch (fu + 1) (.BNode tpl none ancs dt hs el)
            (.BNode tpl2 none ancs2 dt2 hs2 el2) d
          = .ok (.BNode tpl none ancs dt2 hs el, d))
    ∧ (∀ (fu a : Nat) (tpl : DNode) (dt : Option (List Nat))
        (hs : List (String × Nat)) (d : Doc),
        (Block.mountBefore (fu + 1) a (newBNode tpl none dt (some hs)) d).toOption.map
            (fun r => r.2.listeners)
          = some (d.listeners ++ listenerRecs d.nextId hs 0))
    ∧ (∀ (el : Nat) (hs : List (String × Nat)),
        (listenerRecs el hs 0).map (fun r => r.2.2) = List.range' 0 hs.length)
    ∧ (∀ (fu : Nat) (tpl tpl2 : DNode) (ancs ancs2 : Option (List Nat))
        (dt dt2 : Option (List Nat)) (hs hs2 : Option (List (String × Nat)))
        (el el2 : Option Nat) (d : Doc) (i : Nat),
        (Block.patch (fu + 1) (.BNode tpl none ancs dt hs el)
            (.BNode tpl2 none ancs2 dt2 hs2 el2) d).toOption.map
            (fun r => Block.invokeListener r.1 i)
          = some (Block.invokeListener (.BNode tpl none ancs dt hs el) i)) := by
  refine ⟨fun _ _ _ _ _ _ _ _ _ _ _ _ => rfl, ?_, ?_, ?_⟩
  · intro fu a tpl dt hs d
    simp [Block.mountBefore, newBNode, BNodeBuild, setupHandlersM, setupHandlersGo_listeners,
      beforeD_listeners, Res.toOption, cloneNodeFresh_root_nid]
  · intro el hs
    exact listenerRecs_indices hs el 0
  · intro fu tpl tpl2 ancs ancs2 dt dt2 hs hs2 el el2 d i
    cases hs <;> rfl

/-- C9: for every constructed text s and successor text s2, mounting the
Text block into the empty container puts exactly its leaf (identity 0) in
the live tree holding s, and patching with the successor keeps the very same
visual handle — textEl is still identity 0 and the live tree still consists
of exactly that node, so no replacement occurred — now holding the
successor's text s2. -/
theorem C9_text_mount_patch_identity (s s2 : String) (fu fv : Nat) :
    ((Block.mount (fu + 1) (newBText s emptyDoc).1
        (newBText s2 (newBText s emptyDoc).2).2).toOption.map
        (fun r => (r.1.textEl, BText.asString r.1 r.2, liveIdsD r.2))
      = some (some 0, some s, [0]))
    ∧ (((Block.mount (fu + 1) (newBText s emptyDoc).1
          (newBText s2 (newBText s emptyDoc).2).2).bind
        (fun r => Block.patch (fv + 1) r.1 (newBText s2 (newBText s emptyDoc).2).1 r.2)).toOption.map
        (fun r => (r.1.textEl, BText.asString r.1 r.2, liveIdsD r.2))
      = some (some 0, some s2, [0])) :=
  ⟨rfl, rfl⟩

theorem collMountChildren_ok_all_present (cs : List (Option Block)) :
    ∀ (fu a : Nat) (d : Doc) (res : List (Option Block) × Doc),
      BCollection.mountChildren fu a cs d = .ok res → cs.all Option.isSome = true := by
  induction cs with
  | nil => intro fu a d res _; rfl
  | cons c cs ih =>
    intro fu a d res h
    cases fu with
    | zero => exact absurd h (by simp [BCollection.mountChildren])
    | succ fu =>
      cases c with
      | none => exact absurd h (by simp [BCollection.mountChildren])
      | some b =>
        simp only [BCollection.mountChildren] at h
        cases hm : Block.mountBefore fu a b d with
        | ok r =>
          obtain ⟨c1, d1⟩ := r
          rw [hm] at h
          dsimp only at h
          cases hr : BCollection.mountChildren fu a cs d1 with
          | ok r2 =>
            simp only [List.all_cons, Option.isSome_some, Bool.true_and]
            exact ih fu a d1 r2 hr
          | fault => rw [hr] at h; cases h
          | nofuel => rw [hr] at h; cases h
        | fault => rw [hm] at h; cases h
        | nofuel => rw [hm] at h; cases h

theorem collMountChildren_hole_not_ok (cs : List (Option Block)) :
    ∀ (fu a : Nat) (d : Doc), none ∈ cs →
      BCollection.mountChildren fu a cs d = .fault
      ∨ BCollection.mountChildren fu a cs d = .nofuel := by
  induction cs with
  | nil => intro fu a d h; cases h
  | cons c cs ih =>
    intro fu a d h
    cases fu with
    | zero => right; rfl
    | succ fu =>
      cases c with
      | none => left; rfl
      | some b =>
        have hmem : none ∈ cs := by
          cases h with
          | tail _ h2 => exact h2
        simp only [BCollection.mountChildren]
        cases hm : Block.mountBefore fu a b d with
        | ok r =>
          obtain ⟨c1, d1⟩ := r
          dsimp only
          rcases ih fu a d1 hmem with h2 | h2 <;> rw [h2] <;> simp
        | fault => simp
        | nofuel => simp

theorem C10_collection_mount_requires_children :
    (∀ (fu a : Nat) (cs : List (Option Block)) (anc : Option Nat) (d : Doc)
        (b' : Block) (d' : Doc),
        Block.mountBefore fu a (.BCollection cs anc) d = .ok (b', d') →
        cs.all Option.isSome = true ∧ b'.collAnchor = some d.nextId)
    ∧ (∀ (fu a : Nat) (cs : List (Option Block)) (anc : Option Nat) (d : Doc),
        none ∈ cs →
        Block.mountBefore fu a (.BCollection cs anc) d = .fault
        ∨ Block.mountBefore fu a (.BCollection cs anc) d = .nofuel)
    ∧ (Block.mount 10 (newBCollection 2) emptyDoc).isFault = true
    ∧ collThreeMounted.toOption.map
        (fun r => (r.1.collAnchor, r.1.childrenPresence, liveIdsD r.2,
          textsOfIds [0, 5] r.2))
      = some (some 3, [true, true, true], [0, 4, 5, 1, 3], [some "t", some "h"]) := by
  refine ⟨?_, ?_, by decide, by decide⟩
  · intro fu a cs anc d b' d' h
    cases fu with
    | zero => cases h
    | succ fu =>
      simp only [Block.mountBefore] at h
      split at h
      next cs' d3 heq =>
        cases h
        exact ⟨collMountChildren_ok_all_present cs _ _ _ _ heq, rfl⟩
      next => cases h
      next => cases h
  · intro fu a cs anc d hmem
    cases fu with
    | zero => right; rfl
    | succ fu =>
      simp only [Block.mountBefore]
      split
      next cs' d3 heq =>
        exfalso
        have hall := collMountChildren_ok_all_present cs _ _ _ _ heq
        rw [List.all_eq_true] at hall
        exact absurd (hall none hmem) (by simp)
      next => left; rfl
      next => right; rfl

theorem C10_collection_mount_requires_children_witness :
    (([some spanNode] : List (Option Block)).all Option.isSome = true
      ∧ (Block.BCollection [some (Block.BNode spanTpl none none none none (some 1))]
          (some 0)).collAnchor = some 0)
    ∧ (Block.mountBefore 10 5 (.BCollection [none] none) emptyDoc = .fault
      ∨ Block.mountBefore 10 5 (.BCollection [none] none) emptyDoc = .nofuel) :=
  ⟨C10_collection_mount_requires_children.1 10 5 [some spanNode] none emptyDoc _ _ rfl,
   C10_collection_mount_requires_children.2.1 10 5 [none] none emptyDoc (List.mem_cons_self none [])⟩


theorem SlotTable_shift (o nc r : Option Block) (olds news res : List (Option Block))
    (ancsl : List Nat) (i : Nat) (h : SlotTable olds news ancsl.tail res i) :
    SlotTable (o :: olds) (nc :: news) ancsl (r :: res) (i + 1) := by
  have ha : ancsl.getD (i + 1) 0 = ancsl.tail.getD i 0 := by
    cases ancsl <;> simp [List.getD]
  unfold SlotTable at h ⊢
  simp only [List.getD_cons_succ, ha]
  exact h

theorem patchChildren_slots (news : List (Option Block)) :
    ∀ (olds : List (Option Block)) (ancsl : List Nat) (fu : Nat) (d : Doc)
      (res : List (Option Block)) (d' : Doc),
      BNode.patchChildren fu olds news (some ancsl) d = .ok (res, d') →
      olds.length = news.length →
      res.length = olds.length ∧ ∀ i, i < news.length → SlotTable olds news ancsl res i := by
  induction news with
  | nil =>
    intro olds ancsl fu d res d' h hlen
    cases fu with
    | zero => cases h
    | succ fu =>
      simp only [BNode.patchChildren] at h
      cases h
      exact ⟨rfl, fun i hi => absurd hi (by simp)⟩
  | cons nc ncs ih =>
    intro olds ancsl fu d res d' h hlen
    cases olds with
    | nil => simp at hlen
    | cons o os =>
      cases fu with
      | zero => cases h
      | succ fu =>
        have hlen' : os.length = ncs.length := by
          simpa using hlen
        simp only [BNode.patchChildren, List.headD_cons, List.tail_cons, Option.map] at h
        cases o with
        | some c =>
          cases nc with
          | some n =>
            dsimp only at h
            cases hp : Block.patch fu c n d with
            | ok r1 =>
              obtain ⟨c', d1⟩ := r1
              rw [hp] at h
              dsimp only at h
              cases hr : BNode.patchChildren fu os ncs (some ancsl.tail) d1 with
              | ok r2 =>
                obtain ⟨rest, d2⟩ := r2
                rw [hr] at h
                dsimp only at h
                cases h
                obtain ⟨hl, htab⟩ := ih os ancsl.tail fu d1 _ _ hr hlen'
                refine ⟨by simp [hl], ?_⟩
                intro i hi
                cases i with
                | zero =>
                  refine ⟨by simp, fun c0 hc0 hn0 => by simp at hn0, fun n0 hc0 => by simp at hc0, ?_⟩
                  intro c0 n0 hc0 hn0
                  simp only [List.getD_cons_zero, Option.some.injEq] at hc0 hn0
                  subst hc0; subst hn0
                  exact ⟨c', fu, d, d1, hp, by simp⟩
                | succ i =>
                  exact SlotTable_shift _ _ _ _ _ _ _ _ (htab i (by simpa using hi))
              | fault => rw [hr] at h; cases h
              | nofuel => rw [hr] at h; cases h
            | fault => rw [hp] at h; cases h
            | nofuel => rw [hp] at h; cases h
          | none =>
            dsimp only at h
            cases hrm : Block.remove fu c d with
            | ok d1 =>
              rw [hrm] at h
              dsimp only at h
              cases hr : BNode.patchChildren fu os ncs (some ancsl.tail) d1 with
              | ok r2 =>
                obtain ⟨rest, d2⟩ := r2
                rw [hr] at h
                dsimp only at h
                cases h
                obtain ⟨hl, htab⟩ := ih os ancsl.tail fu d1 _ _ hr hlen'
                refine ⟨by simp [hl], ?_⟩
                intro i hi
                cases i with
                | zero =>
                  refine ⟨by simp, ?_, fun n0 hc0 => by simp at hc0,
                    fun c0 n0 hc0 hn0 => by simp at hn0⟩
                  intro c0 hc0 _
                  simp only [List.getD_cons_zero, Option.some.injEq] at hc0
                  subst hc0
                  exact ⟨by simp, fu, d, d1, hrm⟩
                | succ i =>
                  exact SlotTable_shift _ _ _ _ _ _ _ _ (htab i (by simpa using hi))
              | fault => rw [hr] at h; cases h
              | nofuel => rw [hr] at h; cases h
            | fault => rw [hrm] at h; cases h
            | nofuel => rw [hrm] at h; cases h
        | none =>
          cases nc with
          | some n =>
            cases ancsl with
            | nil =>
              dsimp only at h
              cases h
            | cons a as =>
              dsimp only at h
              simp only [List.tail_cons] at h
              cases hm : Block.mountBefore fu a n d with
              | ok r1 =>
                obtain ⟨n', d1⟩ := r1
                rw [hm] at h
                dsimp only at h
                cases hr : BNode.patchChildren fu os ncs (some as) d1 with
                | ok r2 =>
                  obtain ⟨rest, d2⟩ := r2
                  rw [hr] at h
                  dsimp only at h
                  cases h
                  obtain ⟨hl, htab⟩ := ih os as fu d1 _ _ hr hlen'
                  refine ⟨by simp [hl], ?_⟩
                  intro i hi
                  cases i with
                  | zero =>
                    refine ⟨fun h1 h2 => by simp at h2, fun c0 hc0 => by simp at hc0, ?_,
                      fun c0 n0 hc0 => by simp at hc0⟩
                    intro n0 _ hn0
                    simp only [List.getD_cons_zero, Option.some.injEq] at hn0
                    subst hn0
                    exact ⟨n', fu, d, d1, by simpa using hm, by simp⟩
                  | succ i =>
                    exact SlotTable_shift _ _ _ _ _ _ _ _ (htab i (by simpa using hi))
                | fault => rw [hr] at h; cases h
                | nofuel => rw [hr] at h; cases h
              | fault => rw [hm] at h; cases h
              | nofuel => rw [hm] at h; cases h
          | none =>
            dsimp only at h
            cases hr : BNode.patchChildren fu os ncs (some ancsl.tail) d with
            | ok r2 =>
              obtain ⟨rest, d2⟩ := r2
              rw [hr] at h
              dsimp only at h
              cases h
              obtain ⟨hl, htab⟩ := ih os ancsl.tail fu d _ _ hr hlen'
              refine ⟨by simp [hl], ?_⟩
              intro i hi
              cases i with
              | zero =>
                refine ⟨fun _ _ => by simp, fun c0 hc0 => by simp at hc0,
                  fun n0 _ hn0 => by simp at hn0, fun c0 n0 hc0 => by simp at hc0⟩
              | succ i =>
                exact SlotTable_shift _ _ _ _ _ _ _ _ (htab i (by simpa using hi))
            | fault => rw [hr] at h; cases h
            | nofuel => rw [hr] at h; cases h

/-- C5: for Node blocks with children, a successful patch with a same-arity
successor leaves the block's template, anchors, handlers and root handle
unchanged, absorbs the successor's data, and realizes at every slot index
exactly the documented transition (SlotTable): both absent is a no-op; old
present and new absent nulls the slot after a successful removal of the old
child; old absent and new present installs a block produced by a successful
mount before that slot's marker; both present installs the result of a
successful recursive patch of the retained old child.  The concrete one-slot
scenario confirms the document side: after the present-to-absent patch the
slot marker (identity 3) is still in the live tree inside the block's root
and no visual trace of the old child (identity 4) remains live. -/
theorem C5_node_patch_slot_transitions :
    (∀ (tpl tpl2 : DNode) (olds news : List (Option Block)) (ancsl : List Nat)
        (dt dt2 : Option (List Nat)) (hs hs2 : Option (List (String × Nat)))
        (el el2 : Option Nat) (fu : Nat) (d : Doc) (b' : Block) (d' : Doc),
        Block.patch (fu + 1) (.BNode tpl (some olds) (some ancsl) dt hs el)
            (.BNode tpl2 (some news) none dt2 hs2 el2) d = .ok (b', d') →
        olds.length = news.length →
        ∃ res : List (Option Block),
          b' = .BNode tpl (some res) (some ancsl) dt2 hs el
          ∧ res.length = olds.length
          ∧ ∀ i, i < news.length → SlotTable olds news ancsl res i)
    ∧ nodeOnePatched.toOption.map
        (fun r => (r.1.childrenPresence, r.1.anchorsOf, liveIdsD r.2, inLiveD 4 r.2))
      = some ([false], some [3], [1, 3], false) := by
  refine ⟨?_, by decide⟩
  intro tpl tpl2 olds news ancsl dt dt2 hs hs2 el el2 fu d b' d' h hlen
  simp only [Block.patch] at h
  cases hr : BNode.patchChildren fu olds news (some ancsl) d with
  | ok r =>
    obtain ⟨res, d2⟩ := r
    rw [hr] at h
    dsimp only at h
    cases h
    obtain ⟨hl, htab⟩ := patchChildren_slots news olds ancsl fu d _ _ hr hlen
    exact ⟨res, rfl, hl, htab⟩
  | fault => rw [hr] at h; cases h
  | nofuel => rw [hr] at h; cases h

theorem C5_node_patch_slot_transitions_witness :
    ∃ res : List (Option Block),
      Block.BNode spanTpl (some [some (Block.BText 0)]) (some [5]) none none none
        = .BNode spanTpl (some res) (some [5]) none none none
      ∧ res.length = ([some (Block.BText 0)] : List (Option Block)).length
      ∧ ∀ i, i < ([some (Block.BText 1)] : List (Option Block)).length →
          SlotTable [some (Block.BText 0)] [some (Block.BText 1)] [5] res i :=
  C5_node_patch_slot_transitions.1 spanTpl spanTpl [some (.BText 0)] [some (.BText 1)] [5]
    none none none none none none 2 slotDoc _ _ rfl rfl

mutual
theorem cloneNodeFresh_count (tg : String) : ∀ (t : DNode) (n : Nat),
    countTagN tg (cloneNodeFresh t n).1 = countTagN tg t
  | .text _ _, _ => rfl
  | .elem _ tt kids, n => by
      simp only [cloneNodeFresh, countTagN]
      rw [cloneKidsFresh_count tg kids (n + 1)]
theorem cloneKidsFresh_count (tg : String) : ∀ (ks : List DNode) (n : Nat),
    countTagL tg (cloneKidsFresh ks n).1 = countTagL tg ks
  | [], _ => rfl
  | k :: ks, n => by
      simp only [cloneKidsFresh, countTagL]
      rw [cloneNodeFresh_count tg k n, cloneKidsFresh_count tg ks (cloneNodeFresh k n).2]
end

theorem cloneNodeFresh_countUnder (tg : String) (t : DNode) (n : Nat) :
    countTagUnder tg (cloneNodeFresh t n).1 = countTagUnder tg t := by
  cases t with
  | text i s => rfl
  | elem i tt kids =>
    simp only [cloneNodeFresh, countTagUnder]
    exact cloneKidsFresh_count tg kids (n + 1)

theorem buildAnchors_ok_range : ∀ (c : Nat) (el : DNode) (n : Nat) (el' : DNode)
    (l : List Nat) (n' : Nat),
    buildAnchors c el n = some (el', l, n') → l = List.range' n c ∧ n' = n + c := by
  intro c
  induction c with
  | zero =>
    intro el n el' l n' h
    simp only [buildAnchors] at h
    cases h
    exact ⟨rfl, rfl⟩
  | succ c ih =>
    intro el n el' l n' h
    simp only [buildAnchors] at h
    cases hrep : replaceFirstTagUnder "owl-anchor" (DNode.text n "") el with
    | some el1 =>
      rw [hrep] at h
      dsimp only at h
      cases hb : buildAnchors c el1 (n + 1) with
      | some r =>
        obtain ⟨el2, l2, n2⟩ := r
        rw [hb] at h
        dsimp only [Option.map] at h
        cases h
        obtain ⟨h1, h2⟩ := ih el1 (n + 1) _ _ _ hb
        subst h1
        refine ⟨by rw [List.range'_succ], by omega⟩
      | none => rw [hb] at h; cases h
    | none => rw [hrep] at h; cases h

theorem mountChildren_ok_length : ∀ (cs : List (Option Block)) (fu : Nat)
    (ancs : List Nat) (d : Doc) (cs' : List (Option Block)) (d' : Doc),
    BNode.mountChildren fu cs ancs d = .ok (cs', d') → cs'.length = cs.length := by
  intro cs
  induction cs with
  | nil =>
    intro fu ancs d cs' d' h
    cases fu with
    | zero => cases h
    | succ fu => cases h; rfl
  | cons c cs ih =>
    intro fu ancs d cs' d' h
    cases fu with
    | zero => cases h
    | succ fu =>
      cases c with
      | none =>
        simp only [BNode.mountChildren] at h
        cases hr : BNode.mountChildren fu cs ancs.tail d with
        | ok r =>
          obtain ⟨rest, d2⟩ := r
          rw [hr] at h
          dsimp only at h
          cases h
          simp [ih fu ancs.tail d _ _ hr]
        | fault => rw [hr] at h; cases h
        | nofuel => rw [hr] at h; cases h
      | some b =>
        simp only [BNode.mountChildren] at h
        cases ancs with
        | nil => cases h
        | cons a ancs' =>
          dsimp only at h
          cases hm : Block.mountBefore fu a b d with
          | ok r1 =>
            obtain ⟨b1, d1⟩ := r1
            rw [hm] at h
            dsimp only at h
            cases hr : BNode.mountChildren fu cs ancs' d1 with
            | ok r2 =>
              obtain ⟨rest, d2⟩ := r2
              rw [hr] at h
              dsimp only at h
              cases h
              simp [ih fu ancs' d1 _ _ hr]
            | fault => rw [hr] at h; cases h
            | nofuel => rw [hr] at h; cases h
          | fault => rw [hm] at h; cases h
          | nofuel => rw [hm] at h; cases h

mutual
theorem replaceFirstTagN_count0 (tg : String) (x : DNode) : ∀ (t : DNode),
    countTagN tg t = 0 → replaceFirstTagN tg x t = none
  | .text _ _ => fun _ => rfl
  | .elem j tt kids => fun h => by
      simp only [countTagN] at h
      cases htt : (tt == tg) with
      | true => simp [htt] at h
      | false =>
        simp only [htt, Bool.false_eq_true, if_false, Nat.zero_add] at h
        simp only [replaceFirstTagN, htt, Bool.false_eq_true, if_false]
        rw [replaceFirstTagL_count0 tg x kids h]
        rfl
theorem replaceFirstTagL_count0 (tg : String) (x : DNode) : ∀ (ks : List DNode),
    countTagL tg ks = 0 → replaceFirstTagL tg x ks = none
  | [] => fun _ => rfl
  | k :: ks => fun h => by
      simp only [countTagL] at h
      have hk : countTagN tg k = 0 := by omega
      have hks : countTagL tg ks = 0 := by omega
      simp only [replaceFirstTagL]
      rw [replaceFirstTagN_count0 tg x k hk, replaceFirstTagL_count0 tg x ks hks]
      rfl
end

mutual
theorem replaceFirstTagN_success (tg : String) (x : DNode) (hx0 : countTagN tg x = 0)
    (hx1 : noNestedN tg x = true) : ∀ (t : DNode) (c : Nat),
    noNestedN tg t = true → countTagN tg t = c + 1 →
    ∃ t', replaceFirstTagN tg x t = some t'
      ∧ countTagN tg t' = c ∧ noNestedN tg t' = true
  | .text _ _ => fun c _ hc => by simp [countTagN] at hc
  | .elem j tt kids => fun c hn hc => by
      simp only [countTagN] at hc
      simp only [noNestedN] at hn
      cases htt : (tt == tg) with
      | true =>
        simp only [htt, if_true] at hn hc
        have hk0 : countTagL tg kids = 0 := by simpa using hn
        have hc0 : c = 0 := by omega
        subst hc0
        exact ⟨x, by simp [replaceFirstTagN, htt], hx0, hx1⟩
      | false =>
        simp only [htt, Bool.false_eq_true, if_false, Nat.zero_add] at hn hc
        obtain ⟨ks', h1, h2, h3⟩ := replaceFirstTagL_success tg x hx0 hx1 kids c hn hc
        refine ⟨DNode.elem j tt ks', ?_, ?_, ?_⟩
        · simp [replaceFirstTagN, htt, h1]
        · simp [countTagN, htt, h2]
        · simp [noNestedN, htt, h3]
theorem replaceFirstTagL_success (tg : String) (x : DNode) (hx0 : countTagN tg x = 0)
    (hx1 : noNestedN tg x = true) : ∀ (ks : List DNode) (c : Nat),
    noNestedL tg ks = true → countTagL tg ks = c + 1 →
    ∃ ks', replaceFirstTagL tg x ks = some ks'
      ∧ countTagL tg ks' = c ∧ noNestedL tg ks' = true
  | [] => fun c _ hc => by simp [countTagL] at hc
  | k :: ks => fun c hn hc => by
      simp only [countTagL] at hc
      simp only [noNestedL, Bool.and_eq_true] at hn
      obtain ⟨hnk, hnks⟩ := hn
      by_cases hk : countTagN tg k = 0
      · have h0 := replaceFirstTagN_count0 tg x k hk
        have hcs : countTagL tg ks = c + 1 := by omega
        obtain ⟨ks', h1, h2, h3⟩ := replaceFirstTagL_success tg x hx0 hx1 ks c hnks hcs
        refine ⟨k :: ks', ?_, ?_, ?_⟩
        · simp only [replaceFirstTagL, h0, h1]
          rfl
        · simp [countTagL, hk, h2]
        · simp [noNestedL, hnk, h3]
      · obtain ⟨m, hm⟩ : ∃ m, countTagN tg k = m + 1 := ⟨countTagN tg k - 1, by omega⟩
        obtain ⟨k', h1, h2, h3⟩ := replaceFirstTagN_success tg x hx0 hx1 k m hnk hm
        refine ⟨k' :: ks, ?_, ?_, ?_⟩
        · simp [replaceFirstTagL, h1]
        · simp only [countTagL, h2]
          omega
        · simp [noNestedL, h3, hnks]
end

theorem replaceFirstTagUnder_count0 (tg : String) (x el : DNode) :
    countTagUnder tg el = 0 → replaceFirstTagUnder tg x el = none := by
  cases el with
  | text i s => intro _; rfl
  | elem j t kids =>
    intro h
    simp only [countTagUnder] at h
    simp only [replaceFirstTagUnder]
    rw [replaceFirstTagL_count0 tg x kids h]
    rfl

theorem buildAnchors_succ (k : Nat) (el : DNode) (nid : Nat) :
    buildAnchors (k + 1) el nid
      = match replaceFirstTagUnder "owl-anchor" (DNode.text nid "") el with
        | some el' => (buildAnchors k el' (nid + 1)).map (fun r => (r.1, nid :: r.2.1, r.2.2))
        | none => none := rfl

theorem buildAnchors_complete : ∀ (c : Nat) (el : DNode) (n : Nat),
    noNestedUnder "owl-anchor" el = true → countTagUnder "owl-anchor" el = c →
    ∃ el' l n', buildAnchors c el n = some (el', l, n')
      ∧ countTagUnder "owl-anchor" el' = 0 ∧ noNestedUnder "owl-anchor" el' = true := by
  intro c
  induction c with
  | zero =>
    intro el n hn hc
    exact ⟨el, [], n, rfl, hc, hn⟩
  | succ c ih =>
    intro el n hn hc
    cases el with
    | text i s => simp [countTagUnder] at hc
    | elem j t kids =>
      simp only [countTagUnder] at hc
      simp only [noNestedUnder] at hn
      obtain ⟨ks', h1, h2, h3⟩ :=
        replaceFirstTagL_success "owl-anchor" (DNode.text n "") rfl rfl kids c hn hc
      have hru : replaceFirstTagUnder "owl-anchor" (DNode.text n "") (DNode.elem j t kids)
          = some (DNode.elem j t ks') := by
        simp only [replaceFirstTagUnder, h1]
        rfl
      obtain ⟨el2, l2, n2, hb, hc2, hn2⟩ := ih (DNode.elem j t ks') (n + 1) h3 h2
      refine ⟨el2, n :: l2, n2, ?_, hc2, hn2⟩
      rw [buildAnchors_succ, hru]
      dsimp only
      rw [hb]
      rfl

theorem buildAnchors_over : ∀ (c : Nat) (el : DNode) (n : Nat),
    noNestedUnder "owl-anchor" el = true → countTagUnder "owl-anchor" el = c →
    buildAnchors (c + 1) el n = none := by
  intro c
  induction c with
  | zero =>
    intro el n hn hc
    rw [buildAnchors_succ, replaceFirstTagUnder_count0 "owl-anchor" (DNode.text n "") el hc]
  | succ c ih =>
    intro el n hn hc
    cases el with
    | text i s => simp [countTagUnder] at hc
    | elem j t kids =>
      simp only [countTagUnder] at hc
      simp only [noNestedUnder] at hn
      obtain ⟨ks', h1, h2, h3⟩ :=
        replaceFirstTagL_success "owl-anchor" (DNode.text n "") rfl rfl kids c hn hc
      have hru : replaceFirstTagUnder "owl-anchor" (DNode.text n "") (DNode.elem j t kids)
          = some (DNode.elem j t ks') := by
        simp only [replaceFirstTagUnder, h1]
        rfl
      rw [buildAnchors_succ, hru]
      dsimp only
      rw [ih (DNode.elem j t ks') (n + 1) h3 h2]
      rfl

/-- C8: the anchors-children length invariant of Node blocks and the build
discipline.  Part one: for a Node block whose template contains k placeholder
elements and whose children array has length k, a successful mountBefore
yields a block with children.length = anchors.length = k, the anchors being
k consecutive freshly created marker identities in creation order (first
placeholder to first marker).  Part two: a successful patch with a same-arity
successor preserves the children length and the anchors array unchanged.
Part three: on a template whose placeholders are not nested, the
marker-building loop run for the snapshot count succeeds — consuming every
placeholder, leaving none — and produces the consecutive fresh markers in
order, while running it even one extra step faults on the exhausted live
collection; this is exactly the position-0 live-view discipline, performed
exactly k times. -/
theorem C8_node_anchor_children_invariant :
    (∀ (k fu a : Nat) (tpl : DNode) (cs : List (Option Block))
        (anchors0 dt : Option (List Nat)) (hs : Option (List (String × Nat)))
        (d : Doc) (b' : Block) (d' : Doc),
        Block.mountBefore (fu + 1) a (.BNode tpl (some cs) anchors0 dt hs none) d
          = .ok (b', d') →
        countTagUnder "owl-anchor" tpl = k →
        cs.length = k →
        b'.childrenLen = some k ∧ b'.anchorsLen = some k
        ∧ ∃ n0, b'.anchorsOf = some (List.range' n0 k))
    ∧ (∀ (tpl tpl2 : DNode) (olds news : List (Option Block)) (ancsl : List Nat)
        (dt dt2 : Option (List Nat)) (hs hs2 : Option (List (String × Nat)))
        (el el2 : Option Nat) (fu : Nat) (d : Doc) (b' : Block) (d' : Doc),
        Block.patch (fu + 1) (.BNode tpl (some olds) (some ancsl) dt hs el)
            (.BNode tpl2 (some news) none dt2 hs2 el2) d = .ok (b', d') →
        olds.length = news.length →
        b'.childrenLen = some olds.length ∧ b'.anchorsOf = some ancsl)
    ∧ (∀ (tpl : DNode) (n : Nat), noNestedUnder "owl-anchor" tpl = true →
        (∃ el' l n', buildAnchors (countTagUnder "owl-anchor" tpl) tpl n = some (el', l, n')
          ∧ countTagUnder "owl-anchor" el' = 0
          ∧ l = List.range' n (countTagUnder "owl-anchor" tpl))
        ∧ buildAnchors (countTagUnder "owl-anchor" tpl + 1) tpl n = none) := by
  refine ⟨?_, ?_, ?_⟩
  · intro k fu a tpl cs anchors0 dt hs d b' d' h hk hcs
    simp only [Block.mountBefore, BNodeBuild] at h
    split at h
    next elId anchors' d1 heq =>
      split at heq
      next el1 ancs n2 heq2 =>
        injection heq with heq3
        rw [Prod.mk.injEq, Prod.mk.injEq] at heq3
        obtain ⟨hA, hB, hC⟩ := heq3
        subst hA
        subst hB
        subst hC
        dsimp only at h
        split at h
        next cs' d2 heq4 =>
          cases h
          have hlen := mountChildren_ok_length cs fu ancs _ _ _ heq4
          have hrange := buildAnchors_ok_range _ _ _ _ _ _ heq2
          have hcnt : countTagUnder "owl-anchor" (cloneNodeFresh tpl d.nextId).1 = k := by
            rw [cloneNodeFresh_countUnder, hk]
          rw [hcnt] at hrange
          refine ⟨?_, ?_, ?_⟩
          · simp only [Block.childrenLen, hlen, hcs]
          · simp only [Block.anchorsLen, hrange.1, List.length_range']
          · exact ⟨(cloneNodeFresh tpl d.nextId).2, by simp only [Block.anchorsOf, hrange.1]⟩
        next => cases h
        next => cases h
      next heq2 => cases heq
    next => cases h
    next => cases h
  · intro tpl tpl2 olds news ancsl dt dt2 hs hs2 el el2 fu d b' d' h hlen
    simp only [Block.patch] at h
    cases hr : BNode.patchChildren fu olds news (some ancsl) d with
    | ok r =>
      obtain ⟨res, d2⟩ := r
      rw [hr] at h
      dsimp only at h
      cases h
      have hl := (patchChildren_slots news olds ancsl fu d _ _ hr hlen).1
      exact ⟨by simp only [Block.childrenLen, hl], rfl⟩
    | fault => rw [hr] at h; cases h
    | nofuel => rw [hr] at h; cases h
  · intro tpl n hn
    obtain ⟨el', l, n', hb, hc0, _⟩ := buildAnchors_complete _ tpl n hn rfl
    have hr := buildAnchors_ok_range _ _ _ _ _ _ hb
    exact ⟨⟨el', l, n', hb, hc0, hr.1⟩, buildAnchors_over _ tpl n hn rfl⟩

theorem C8_node_anchor_children_invariant_witness :
    ((Block.BNode tplTwo (some [none, none]) (some [3, 4]) none none (some 0)).childrenLen
        = some 2
      ∧ (Block.BNode tplTwo (some [none, none]) (some [3, 4]) none none (some 0)).anchorsLen
        = some 2
      ∧ ∃ n0, (Block.BNode tplTwo (some [none, none]) (some [3, 4])
          none none (some 0)).anchorsOf = some (List.range' n0 2))
    ∧ ((Block.BNode spanTpl (some [some (Block.BText 0)]) (some [7])
        none none none).childrenLen
          = some ([some (Block.BText 0)] : List (Option Block)).length
      ∧ (Block.BNode spanTpl (some [some (Block.BText 0)]) (some [7])
          none none none).anchorsOf = some [7])
    ∧ ((∃ el' l n', buildAnchors (countTagUnder "owl-anchor" tplTwo) tplTwo 10
          = some (el', l, n')
        ∧ countTagUnder "owl-anchor" el' = 0
        ∧ l = List.range' 10 (countTagUnder "owl-anchor" tplTwo))
      ∧ buildAnchors (countTagUnder "owl-anchor" tplTwo + 1) tplTwo 10 = none) :=
  ⟨C8_node_anchor_children_invariant.1 2 3 99 tplTwo [none, none] none none none
      emptyDoc _ _ rfl rfl rfl,
   C8_node_anchor_children_invariant.2.1 spanTpl spanTpl [some (.BText 0)]
      [some (.BText 1)] [7] none none none none none none 2 slotDoc _ _ rfl rfl,
   C8_node_anchor_children_invariant.2.2 tplTwo 10 rfl⟩
